import Mathlib

/-!
Verification of the OpenRPC comm code generator
(`positron/comms` generator script: it parses OpenRPC contracts and emits
TypeScript, Rust and Python bindings).

The generator works over dynamically-typed JSON values, so the embedding
models JSON values as a mutual inductive (`Json`/`JArr`/`JObj`) together
with JavaScript evaluation details that the source relies on: property
access on `null`/`undefined` throws a `TypeError`, absent properties read
as `undefined`, truthiness, template-literal string coercion, and
`Object.keys` enumeration.  Fallible generator code is modelled in
`Except String`, an error being a thrown JavaScript exception (either an
explicit `throw new Error(...)` of the source, or an implicit `TypeError`).
-/

mutual
/-- A JavaScript value as handled by the generator: parsed JSON plus the
`undefined` value that arises from reading an absent property. -/
inductive Json where
  | null
  | undefValue
  | bool (b : Bool)
  | num (n : Int)
  | str (s : String)
  | arr (elems : JArr)
  | obj (fields : JObj)

inductive JArr where
  | nil
  | cons (hd : Json) (tl : JArr)

inductive JObj where
  | nil
  | cons (k : String) (v : Json) (tl : JObj)
end

/-- Build a `JArr` from a list. -/
def JArr.ofList : List Json → JArr
  | [] => .nil
  | x :: xs => .cons x (JArr.ofList xs)

/-- Build a `JObj` from a list of key/value pairs. -/
def JObj.ofList : List (String × Json) → JObj
  | [] => .nil
  | (k, v) :: xs => .cons k v (JObj.ofList xs)

/-- Array literal notation helper. -/
def jarr (xs : List Json) : Json := .arr (JArr.ofList xs)

/-- Object literal notation helper. -/
def jobj (fs : List (String × Json)) : Json := .obj (JObj.ofList fs)

/-- The elements of a `JArr` as a list. -/
def JArr.toList : JArr → List Json
  | .nil => []
  | .cons x xs => x :: JArr.toList xs

/-- The fields of a `JObj` as a list. -/
def JObj.toList : JObj → List (String × Json)
  | .nil => []
  | .cons k v t => (k, v) :: JObj.toList t

/-- First binding of key `k` (JavaScript objects have unique keys). -/
def JObj.find : JObj → String → Option Json
  | .nil, _ => none
  | .cons k v t, key => if k = key then some v else JObj.find t key

/-- `Object.keys`, for an object. -/
def JObj.keys : JObj → List String
  | .nil => []
  | .cons k _ t => k :: JObj.keys t

/-- Length of a `JArr`. -/
def JArr.length : JArr → Nat
  | .nil => 0
  | .cons _ t => 1 + JArr.length t

mutual
/-- Decidable Boolean equality on `Json` (JavaScript strict equality `===`
restricted to primitive comparisons is value equality on these shapes). -/
def Json.beq : Json → Json → Bool
  | .null, .null => true
  | .undefValue, .undefValue => true
  | .bool a, .bool b => a = b
  | .num a, .num b => a = b
  | .str a, .str b => a = b
  | .arr a, .arr b => JArr.beq a b
  | .obj a, .obj b => JObj.beq a b
  | _, _ => false

def JArr.beq : JArr → JArr → Bool
  | .nil, .nil => true
  | .cons h t, .cons h₂ t₂ => Json.beq h h₂ && JArr.beq t t₂
  | _, _ => false

def JObj.beq : JObj → JObj → Bool
  | .nil, .nil => true
  | .cons k v t, .cons k₂ v₂ t₂ => k = k₂ && Json.beq v v₂ && JObj.beq t t₂
  | _, _ => false
end

mutual
theorem jsonBeqRefl : ∀ a : Json, Json.beq a a = true
  | .null => rfl
  | .undefValue => rfl
  | .bool _ => by simp [Json.beq]
  | .num _ => by simp [Json.beq]
  | .str _ => by simp [Json.beq]
  | .arr a => by simp [Json.beq, jarrBeqRefl a]
  | .obj a => by simp [Json.beq, jobjBeqRefl a]

theorem jarrBeqRefl : ∀ a : JArr, JArr.beq a a = true
  | .nil => rfl
  | .cons h t => by simp [JArr.beq, jsonBeqRefl h, jarrBeqRefl t]

theorem jobjBeqRefl : ∀ a : JObj, JObj.beq a a = true
  | .nil => rfl
  | .cons k v t => by simp [JObj.beq, jsonBeqRefl v, jobjBeqRefl t]
end

mutual
theorem jsonEqOfBeq : ∀ a b : Json, Json.beq a b = true → a = b
  | .null, .null, _ => rfl
  | .undefValue, .undefValue, _ => rfl
  | .bool _, .bool _, h => by simpa [Json.beq] using h
  | .num _, .num _, h => by simpa [Json.beq] using h
  | .str _, .str _, h => by simpa [Json.beq] using h
  | .arr a, .arr b, h => by
      rw [jarrEqOfBeq a b (by simpa [Json.beq] using h)]
  | .obj a, .obj b, h => by
      rw [jobjEqOfBeq a b (by simpa [Json.beq] using h)]
  | .null, .undefValue, h => by simp [Json.beq] at h
  | .null, .bool _, h => by simp [Json.beq] at h
  | .null, .num _, h => by simp [Json.beq] at h
  | .null, .str _, h => by simp [Json.beq] at h
  | .null, .arr _, h => by simp [Json.beq] at h
  | .null, .obj _, h => by simp [Json.beq] at h
  | .undefValue, .null, h => by simp [Json.beq] at h
  | .undefValue, .bool _, h => by simp [Json.beq] at h
  | .undefValue, .num _, h => by simp [Json.beq] at h
  | .undefValue, .str _, h => by simp [Json.beq] at h
  | .undefValue, .arr _, h => by simp [Json.beq] at h
  | .undefValue, .obj _, h => by simp [Json.beq] at h
  | .bool _, .null, h => by simp [Json.beq] at h
  | .bool _, .undefValue, h => by simp [Json.beq] at h
  | .bool _, .num _, h => by simp [Json.beq] at h
  | .bool _, .str _, h => by simp [Json.beq] at h
  | .bool _, .arr _, h => by simp [Json.beq] at h
  | .bool _, .obj _, h => by simp [Json.beq] at h
  | .num _, .null, h => by simp [Json.beq] at h
  | .num _, .undefValue, h => by simp [Json.beq] at h
  | .num _, .bool _, h => by simp [Json.beq] at h
  | .num _, .str _, h => by simp [Json.beq] at h
  | .num _, .arr _, h => by simp [Json.beq] at h
  | .num _, .obj _, h => by simp [Json.beq] at h
  | .str _, .null, h => by simp [Json.beq] at h
  | .str _, .undefValue, h => by simp [Json.beq] at h
  | .str _, .bool _, h => by simp [Json.beq] at h
  | .str _, .num _, h => by simp [Json.beq] at h
  | .str _, .arr _, h => by simp [Json.beq] at h
  | .str _, .obj _, h => by simp [Json.beq] at h
  | .arr _, .null, h => by simp [Json.beq] at h
  | .arr _, .undefValue, h => by simp [Json.beq] at h
  | .arr _, .bool _, h => by simp [Json.beq] at h
  | .arr _, .num _, h => by simp [Json.beq] at h
  | .arr _, .str _, h => by simp [Json.beq] at h
  | .arr _, .obj _, h => by simp [Json.beq] at h
  | .obj _, .null, h => by simp [Json.beq] at h
  | .obj _, .undefValue, h => by simp [Json.beq] at h
  | .obj _, .bool _, h => by simp [Json.beq] at h
  | .obj _, .num _, h => by simp [Json.beq] at h
  | .obj _, .str _, h => by simp [Json.beq] at h
  | .obj _, .arr _, h => by simp [Json.beq] at h

theorem jarrEqOfBeq : ∀ a b : JArr, JArr.beq a b = true → a = b
  | .nil, .nil, _ => rfl
  | .cons h t, .cons h₂ t₂, hb => by
      have h1 : Json.beq h h₂ = true ∧ JArr.beq t t₂ = true := by
        simpa [JArr.beq, Bool.and_eq_true] using hb
      rw [jsonEqOfBeq h h₂ h1.1, jarrEqOfBeq t t₂ h1.2]
  | .nil, .cons _ _, h => by simp [JArr.beq] at h
  | .cons _ _, .nil, h => by simp [JArr.beq] at h

theorem jobjEqOfBeq : ∀ a b : JObj, JObj.beq a b = true → a = b
  | .nil, .nil, _ => rfl
  | .cons k v t, .cons k₂ v₂ t₂, hb => by
      have h1 : (k = k₂ ∧ Json.beq v v₂ = true) ∧ JObj.beq t t₂ = true := by
        simpa [JObj.beq, Bool.and_eq_true, decide_eq_true_eq] using hb
      rw [h1.1.1, jsonEqOfBeq v v₂ h1.1.2, jobjEqOfBeq t t₂ h1.2]
  | .nil, .cons _ _ _, h => by simp [JObj.beq] at h
  | .cons _ _ _, .nil, h => by simp [JObj.beq] at h
end

deriving instance DecidableEq for Except

instance : DecidableEq Json := fun a b =>
  if h : Json.beq a b = true then .isTrue (jsonEqOfBeq a b h)
  else .isFalse (fun e => h (e ▸ jsonBeqRefl a))

instance : DecidableEq JArr := fun a b =>
  if h : JArr.beq a b = true then .isTrue (jarrEqOfBeq a b h)
  else .isFalse (fun e => h (e ▸ jarrBeqRefl a))

instance : DecidableEq JObj := fun a b =>
  if h : JObj.beq a b = true then .isTrue (jobjEqOfBeq a b h)
  else .isFalse (fun e => h (e ▸ jobjBeqRefl a))

/-- JavaScript truthiness of a value. -/
def Json.truthy : Json → Bool
  | .null => false
  | .undefValue => false
  | .bool b => b
  | .num n => n ≠ 0
  | .str s => s ≠ ""
  | .arr _ => true
  | .obj _ => true

/-- Value of a decimal digit character. -/
def digitVal (c : Char) : Option Nat :=
  if '0' ≤ c ∧ c ≤ '9' then some (c.toNat - '0'.toNat) else none

/-- Decimal parsing of a property key (a canonical array-index key). -/
def parseNatChars : List Char → Option Nat → Option Nat
  | [], acc => acc
  | c :: rest, acc =>
    match digitVal c, acc with
    | some d, some a => parseNatChars rest (some (a * 10 + d))
    | some d, none => parseNatChars rest (some d)
    | none, _ => none

/-- A property key read as an array index, when it is all digits. -/
def keyToIndex (s : String) : Option Nat := parseNatChars s.data none

/-- JavaScript property read `j[k]`: reading on `null`/`undefined` throws a
`TypeError`; an absent property reads as `undefined`; string/array index
properties are numeric. -/
def jfield (j : Json) (k : String) : Except String Json :=
  match j with
  | .null => .error "TypeError"
  | .undefValue => .error "TypeError"
  | .obj fs => .ok ((JObj.find fs k).getD .undefValue)
  | .arr xs =>
    match keyToIndex k with
    | some i => .ok ((JArr.toList xs).getD i .undefValue)
    | none => .ok .undefValue
  | .str s =>
    match keyToIndex k with
    | some i =>
      match s.data.get? i with
      | some c => .ok (.str (String.mk [c]))
      | none => .ok .undefValue
    | none => .ok .undefValue
  | _ => .ok .undefValue

/-- JavaScript property read on a value already known not to throw
(used while walking `$ref` pointers after a key-membership check). -/
def jindexKey (j : Json) (k : String) : Json :=
  match jfield j k with
  | .ok v => v
  | .error _ => .undefValue

/-- `Object.keys(j)`: throws on `null`/`undefined`; objects enumerate their
keys in insertion order; arrays and strings enumerate index keys. -/
def jkeys (j : Json) : Except String (List String) :=
  match j with
  | .null => .error "TypeError"
  | .undefValue => .error "TypeError"
  | .obj fs => .ok (JObj.keys fs)
  | .arr xs => .ok ((List.range (JArr.toList xs).length).map toString)
  | .str s => .ok ((List.range s.length).map toString)
  | _ => .ok []

/-- `for (const x of j)`: arrays iterate elements, strings iterate
characters, everything else is not iterable and throws. -/
def jlist (j : Json) : Except String (List Json) :=
  match j with
  | .arr xs => .ok (JArr.toList xs)
  | .str s => .ok (s.data.map (fun c => .str (String.mk [c])))
  | _ => .error "TypeError"

/-- Template-literal coercion of a value to a string, as in
a JavaScript interpolation of the value. -/
def jdisplay : Json → String
  | .null => "null"
  | .undefValue => "undefined"
  | .bool true => "true"
  | .bool false => "false"
  | .num n => toString n
  | .str s => s
  | .arr _ => ""
  | .obj _ => "[object Object]"

/-- `j.length` read: throws on `null`/`undefined`; arrays and strings have
numeric lengths; other values read `undefined`. -/
def jlength (j : Json) : Except String Json :=
  match j with
  | .null => .error "TypeError"
  | .undefValue => .error "TypeError"
  | .arr xs => .ok (.num (JArr.toList xs).length)
  | .str s => .ok (.num s.length)
  | .obj fs => .ok ((JObj.find fs "length").getD .undefValue)
  | _ => .ok .undefValue

/-- JavaScript `x > 0` where `x` came from a `.length` read (`undefined > 0`
is `false`). -/
def jgtZero : Json → Bool
  | .num n => 0 < n
  | _ => false

/-- `j.includes(x)` for a string argument: arrays compare elements with
strict equality, strings do substring search; other receivers throw. -/
def jincludes (j : Json) (x : String) : Except String Bool :=
  match j with
  | .arr xs => .ok ((JArr.toList xs).contains (.str x))
  | .str s => .ok (decide (x.data <:+: s.data))
  | _ => .error "TypeError"

/-! ## Naming transformer -/

/-- Replace every occurrence of character `c` by the string `r`
(one global regex replacement of the source). -/
def replaceCharBy (c : Char) (r : List Char) : List Char → List Char
  | [] => []
  | x :: xs => if x = c then r ++ replaceCharBy c r xs else x :: replaceCharBy c r xs

/-- ASCII `[a-z]` test used by the source's regexes. -/
def isAsciiLower (c : Char) : Bool := 'a' ≤ c && c ≤ 'z'

/-- `toUpperCase` on an ASCII lowercase letter. -/
def upperAscii (c : Char) : Char :=
  if isAsciiLower c then Char.ofNat (c.toNat - 32) else c

/-- The four comparison-character substitutions, applied in source order:
`=` to `Eq`, then `!` to `Not`, then `<` to `Lt`, then `>` to `Gt`. -/
def replaceOps (cs : List Char) : List Char :=
  replaceCharBy '>' ['G', 't']
    (replaceCharBy '<' ['L', 't']
      (replaceCharBy '!' ['N', 'o', 't']
        (replaceCharBy '=' ['E', 'q'] cs)))

/-- The global replacement `_([a-z])` to upper-case, scanning left to right
non-overlapping, exactly as the source's final regex replacement. -/
def camelUnderscore : List Char → List Char
  | [] => []
  | '_' :: c :: rest =>
    if isAsciiLower c then upperAscii c :: camelUnderscore rest
    else '_' :: camelUnderscore (c :: rest)
  | c :: rest => c :: camelUnderscore rest

/-- `snakeCaseToCamelCase`: comparison-character substitutions, then the
underscore regex replacement. -/
def snakeCaseToCamelCase (name : String) : String :=
  String.mk (camelUnderscore (replaceOps name.data))

/-- The replacement `^[a-z]` to upper-case. -/
def upperFirstLower : List Char → List Char
  | [] => []
  | c :: rest => if isAsciiLower c then upperAscii c :: rest else c :: rest

/-- `snakeCaseToSentenceCase`: camel-case then upper-case a lowercase
first letter. -/
def snakeCaseToSentenceCase (name : String) : String :=
  String.mk (upperFirstLower (snakeCaseToCamelCase name).data)

/-- `snakeCaseToCamelCase` applied to a JavaScript value: `.replace` exists
only on strings, anything else throws. -/
def camelJs : Json → Except String String
  | .str s => .ok (snakeCaseToCamelCase s)
  | _ => .error "TypeError"

/-- `snakeCaseToSentenceCase` applied to a JavaScript value. -/
def sentenceCaseJs : Json → Except String String
  | .str s => .ok (snakeCaseToSentenceCase s)
  | _ => .error "TypeError"

/-! ## Comment formatting -/

/-- Mirror of the JavaScript single-character `split`. -/
def splitOnChar (sep : Char) : List Char → List (List Char)
  | [] => [[]]
  | c :: rest =>
    let r := splitOnChar sep rest
    if c = sep then [] :: r
    else
      match r with
      | [] => [[c]]
      | w :: ws => (c :: w) :: ws

/-- `s.split(sep)` for a single-character separator. -/
def jsSplit (sep : Char) (s : String) : List String :=
  (splitOnChar sep s.data).map String.mk

/-- The word-accumulation loop of `formatLines`. -/
def formatLinesGo : List String → List String → String → List String
  | [], lines, currentLine => lines ++ [currentLine]
  | w :: ws, lines, currentLine =>
    if currentLine.length + w.length + 1 > 70 then
      formatLinesGo ws (lines ++ [currentLine]) w
    else
      formatLinesGo ws lines
        (if currentLine.length > 0 then currentLine ++ " " ++ w else currentLine ++ w)

/-- `formatLines`: break a line into lines of at most 70 characters. -/
def formatLines (line : String) : List String :=
  formatLinesGo (jsSplit ' ' line) [] ""

/-- `formatComment`: prefix every produced line with the leader and a
trailing newline, accumulated left to right. -/
def formatComment (leader comment : String) : String :=
  (formatLines comment).foldl (fun result l => result ++ leader ++ l ++ "\n") ""

/-- `formatComment` applied to a JavaScript value (the source calls
`comment.split`, which only strings support). -/
def formatCommentJ (leader : String) (j : Json) : Except String String :=
  match j with
  | .str s => .ok (formatComment leader s)
  | _ => .error "TypeError"

/-! ## Reference resolver -/

/-- The walk of `parseRefFromContract`: each pointer segment except `#` must
be a key of the current target (`Object.keys(target).includes(part)`),
and the walk steps into that property. -/
def refWalk : List String → Json → Except String Bool
  | [], _ => .ok true
  | p :: ps, target =>
    if p = "#" then refWalk ps target
    else do
      let ks ← jkeys target
      if p ∈ ks then refWalk ps (jindexKey target p) else .ok false

/-- `parseRefFromContract`: split the ref on `/`, walk the contract, and on
success return the Pascal-cased final segment; `none` models the source's
`undefined` result when a segment is absent. -/
def parseRefFromContract (ref : String) (contract : Json) :
    Except String (Option String) := do
  let parts := jsSplit '/' ref
  let found ← refWalk parts contract
  if found then .ok (some (snakeCaseToSentenceCase (parts.getLastD "")))
  else .ok none

/-- `parseRef`: try each contract in order, skipping falsy (absent)
contracts, returning the first truthy resolution; throw a named error when
no contract resolves the ref. -/
def parseRef (ref : String) (contracts : List Json) : Except String String :=
  match contracts with
  | [] => .error ("Could not find ref: " ++ ref)
  | c :: cs =>
    if !c.truthy then parseRef ref cs
    else
      match parseRefFromContract ref c with
      | .error e => .error e
      | .ok (some n) => if n ≠ "" then .ok n else parseRef ref cs
      | .ok none => parseRef ref cs

/-! ## Per-target type tables -/

/-- Maps from JSON schema types to Typescript types. -/
def TypescriptTypeMap : List (String × String) :=
  [("boolean", "boolean"), ("integer", "number"), ("number", "number"),
   ("string", "string"), ("null", "null"), ("array-begin", "Array<"),
   ("array-end", ">"), ("object", "object")]

/-- Maps from JSON schema types to Rust types. -/
def RustTypeMap : List (String × String) :=
  [("boolean", "bool"), ("integer", "i64"), ("number", "f64"),
   ("string", "String"), ("null", "null"), ("array-begin", "Vec<"),
   ("array-end", ">"), ("object", "HashMap")]

/-- Maps from JSON schema types to Python types. -/
def PythonTypeMap : List (String × String) :=
  [("boolean", "bool"), ("integer", "int"), ("number", "float"),
   ("string", "str"), ("null", "null"), ("array-begin", "List["),
   ("array-end", "]"), ("object", "Dict")]

/-- Key lookup in a type table. -/
def tmFind (tm : List (String × String)) (k : String) : Option String :=
  (tm.find? (fun p => p.1 = k)).map Prod.snd

/-- Type-table read as used in string concatenation: an absent key reads
`undefined`, which JavaScript concatenation renders as "undefined". -/
def tmGet (tm : List (String × String)) (k : String) : String :=
  (tmFind tm k).getD "undefined"

/-! ## Type deriver -/

mutual
/-- `deriveType`: derive a target-language type from a schema.  Checks, in
order: `type === "array"`; a truthy `$ref`; `type === "object"` (explicit
`name` if truthy, else the context key); otherwise a type-table lookup with
`Unknown type` as the failure.  Reading `.type` on `null`/`undefined`
throws; a schema that is a primitive or an array reads `.type` as
`undefined` and falls into the `Unknown type: undefined` failure. -/
def deriveType (contracts : List Json) (typeMap : List (String × String))
    (key : Json) : Json → Except String String
  | .null => .error "TypeError"
  | .undefValue => .error "TypeError"
  | .obj fs =>
    let ty := (JObj.find fs "type").getD .undefValue
    if ty = .str "array" then
      match deriveTypeItems contracts typeMap key fs with
      | .error e => .error e
      | .ok inner =>
        .ok (tmGet typeMap "array-begin" ++ inner ++ tmGet typeMap "array-end")
    else
      let r := (JObj.find fs "$ref").getD .undefValue
      if r.truthy then
        match r with
        | .str rs => parseRef rs contracts
        | _ => .error "TypeError"
      else if ty = .str "object" then
        let nm := (JObj.find fs "name").getD .undefValue
        if nm.truthy then sentenceCaseJs nm else sentenceCaseJs key
      else
        match ty with
        | .str t =>
          match tmFind typeMap t with
          | some v => .ok v
          | none => .error ("Unknown type: " ++ t)
        | other => .error ("Unknown type: " ++ jdisplay other)
  | _ => .error ("Unknown type: " ++ jdisplay Json.undefValue)

/-- The recursive call `deriveType(contracts, typeMap, key, schema.items)`:
look up the `items` field of the array schema; when absent the recursive
call reads `.type` on `undefined` and throws. -/
def deriveTypeItems (contracts : List Json) (typeMap : List (String × String))
    (key : Json) : JObj → Except String String
  | .nil => .error "TypeError"
  | .cons k v t =>
    if k = "items" then deriveType contracts typeMap key v
    else deriveTypeItems contracts typeMap key t
end

/-! ## Schema visitors

Both visitors walk the untyped contract tree.  The callback is the
caller-supplied generator body; its yielded fragments are collected in
order, and a thrown exception aborts the whole traversal, mirroring
generator semantics under the drivers, which drain each generator
completely before using any output. -/

/-- The repeated check `if (contract["name"])` of the enum visitor: the
node's `name` property when present and truthy. -/
def truthyName (fs : JObj) : Option Json :=
  match JObj.find fs "name" with
  | some v => if v.truthy then some v else none
  | none => none

mutual
/-- `enumVisitor`: fire the callback on any node with a truthy `enum`
property; recurse into array elements; recurse into every property of
other objects, pushing the node's truthy `name` (for every key) when
present, passing `properties`/`params` transparently, and pushing the
property key otherwise.  Reading `.enum` on `null`/`undefined` throws. -/
def enumVisitor {α : Type} (callback : List Json → Json → Except String (List α))
    (context : List Json) : Json → Except String (List α)
  | .null => .error "TypeError"
  | .undefValue => .error "TypeError"
  | .bool _ => .ok []
  | .num _ => .ok []
  | .str _ => .ok []
  | .arr xs => enumVisitorArr callback context xs
  | .obj fs =>
    if ((JObj.find fs "enum").getD .undefValue).truthy then
      callback context ((JObj.find fs "enum").getD .undefValue)
    else
      enumVisitorFields callback context (truthyName fs) fs

/-- Array recursion of `enumVisitor`. -/
def enumVisitorArr {α : Type} (callback : List Json → Json → Except String (List α))
    (context : List Json) : JArr → Except String (List α)
  | .nil => .ok []
  | .cons h t => do
    let r ← enumVisitor callback context h
    let rest ← enumVisitorArr callback context t
    .ok (r ++ rest)

/-- Property recursion of `enumVisitor` (the `Object.keys` loop; `nm` is
the hoisted `contract["name"]` truthiness check). -/
def enumVisitorFields {α : Type} (callback : List Json → Json → Except String (List α))
    (context : List Json) (nm : Option Json) : JObj → Except String (List α)
  | .nil => .ok []
  | .cons k v t => do
    let r ← (match nm with
      | some n => enumVisitor callback (n :: context) v
      | none =>
        if k = "properties" ∨ k = "params" then enumVisitor callback context v
        else enumVisitor callback (.str k :: context) v)
    let rest ← enumVisitorFields callback context nm t
    .ok (r ++ rest)
end

mutual
/-- `objectVisitor`: fire the callback on any node with
`type === "object"` (before recursing into that node's `properties`);
recurse into array elements; recurse into every property of other objects,
passing the key `schema` transparently and pushing every other key. -/
def objectVisitor {α : Type} (callback : List Json → Json → Except String (List α))
    (context : List Json) : Json → Except String (List α)
  | .null => .error "TypeError"
  | .undefValue => .error "TypeError"
  | .bool _ => .ok []
  | .num _ => .ok []
  | .str _ => .ok []
  | .arr xs => objectVisitorArr callback context xs
  | .obj fs =>
    if (JObj.find fs "type").getD .undefValue = .str "object" then do
      let r ← callback context (.obj fs)
      let r₂ ← objectVisitorProps callback context fs
      .ok (r ++ r₂)
    else objectVisitorFields callback context fs

/-- The recursion `objectVisitor(context, contract.properties, callback)`
after a callback: when `properties` is absent the recursive call reads
`.type` on `undefined` and throws. -/
def objectVisitorProps {α : Type} (callback : List Json → Json → Except String (List α))
    (context : List Json) : JObj → Except String (List α)
  | .nil => .error "TypeError"
  | .cons k v t =>
    if k = "properties" then objectVisitor callback context v
    else objectVisitorProps callback context t

/-- Array recursion of `objectVisitor`. -/
def objectVisitorArr {α : Type} (callback : List Json → Json → Except String (List α))
    (context : List Json) : JArr → Except String (List α)
  | .nil => .ok []
  | .cons h t => do
    let r ← objectVisitor callback context h
    let rest ← objectVisitorArr callback context t
    .ok (r ++ rest)

/-- Property recursion of `objectVisitor` (the `Object.keys` loop). -/
def objectVisitorFields {α : Type} (callback : List Json → Json → Except String (List α))
    (context : List Json) : JObj → Except String (List α)
  | .nil => .ok []
  | .cons k v t => do
    let r ← (if k = "schema" then objectVisitor callback context v
             else objectVisitor callback (.str k :: context) v)
    let rest ← objectVisitorFields callback context t
    .ok (r ++ rest)
end

/-- The visit sequence of the object visitor: every `(context, node)` pair
passed to the callback, in traversal order. -/
def objectVisitorCollect (context : List Json) (j : Json) :
    Except String (List (List Json × Json)) :=
  objectVisitor (fun ctx o => .ok [(ctx, o)]) context j

/-- The visit sequence of the enum visitor: every `(context, values)` pair
passed to the callback, in traversal order. -/
def enumVisitorCollect (context : List Json) (j : Json) :
    Except String (List (List Json × Json)) :=
  enumVisitor (fun ctx e => .ok [(ctx, e)]) context j

/-! ## Emitter infrastructure -/

/-- Concatenate the outputs of `f` over a list, propagating the first
thrown exception (generator draining order). -/
def emitAll {β : Type} (xs : List β) (f : β → Except String String) :
    Except String String :=
  xs.foldlM (fun acc b => do
    let s ← f b
    pure (acc ++ s)) ""

/-- Indexed variant of `emitAll`, for loops that test `i < length - 1`
to place separators. -/
def emitAllIdx {β : Type} (xs : List β) (f : Nat → β → Except String String) :
    Except String String :=
  xs.enum.foldlM (fun acc p => do
    let s ← f p.1 p.2
    pure (acc ++ s)) ""

/-- Number of iterations of a JavaScript loop
`for (i = 0; i < x.length; i++)`: array/string lengths are numeric, an
object reads its `length` property, and any other receiver reads
`undefined` so the loop never runs (`i < undefined` is false). -/
def jsIndexLoopLen : Json → Nat
  | .arr xs => (JArr.toList xs).length
  | .str s => s.length
  | .obj fs =>
    match JObj.find fs "length" with
    | some (.num n) => n.toNat
    | _ => 0
  | _ => 0

/-- The elements `x[0] .. x[length-1]` visited by such an indexed loop
(for an array these are its elements in order; for a string its
characters; for an object its numeric-key properties). -/
def jsLoopElems (j : Json) : List Json :=
  match j with
  | .arr xs => JArr.toList xs
  | .str s => s.data.map (fun c => .str (String.mk [c]))
  | .obj fs =>
    (List.range (jsIndexLoopLen (.obj fs))).map
      (fun i => (JObj.find fs (toString i)).getD .undefValue)
  | _ => []

/-! ## Per-emitter identifier synthesis

Each of the three emitters contains its own copy of the expression
selecting the name of a discovered object node
(`o.name ? o.name : context[0] === "items" ? context[1] : context[0]`)
and of the enum identifier `Pascal(context[1]) + Pascal(context[0])`.
They are transcribed separately below, one per emitter. -/

/-- Object-node name selection of the Rust emitter. -/
def rustObjectName (context : List Json) (fs : JObj) : Json :=
  let nm := (JObj.find fs "name").getD .undefValue
  if nm.truthy then nm
  else if context.getD 0 .undefValue = .str "items" then context.getD 1 .undefValue
  else context.getD 0 .undefValue

/-- Pascal-cased object identifier of the Rust emitter. -/
def rustObjectIdent (context : List Json) (fs : JObj) : Except String String :=
  sentenceCaseJs (rustObjectName context fs)

/-- Object-node name selection of the TypeScript emitter. -/
def tsObjectName (context : List Json) (fs : JObj) : Json :=
  let nm := (JObj.find fs "name").getD .undefValue
  if nm.truthy then nm
  else if context.getD 0 .undefValue = .str "items" then context.getD 1 .undefValue
  else context.getD 0 .undefValue

/-- Pascal-cased object identifier of the TypeScript emitter
(applied by `createTypescriptInterface` at the `export interface` line). -/
def tsObjectIdent (context : List Json) (fs : JObj) : Except String String :=
  sentenceCaseJs (tsObjectName context fs)

/-- Object-node name selection of the Python emitter. -/
def pyObjectName (context : List Json) (fs : JObj) : Json :=
  let nm := (JObj.find fs "name").getD .undefValue
  if nm.truthy then nm
  else if context.getD 0 .undefValue = .str "items" then context.getD 1 .undefValue
  else context.getD 0 .undefValue

/-- Pascal-cased object identifier of the Python emitter. -/
def pyObjectIdent (context : List Json) (fs : JObj) : Except String String :=
  sentenceCaseJs (pyObjectName context fs)

/-- Enum identifier of the Rust emitter:
`Pascal(context[1]) + Pascal(context[0])`. -/
def rustEnumIdent (context : List Json) : Except String String := do
  let a ← sentenceCaseJs (context.getD 1 .undefValue)
  let b ← sentenceCaseJs (context.getD 0 .undefValue)
  .ok (a ++ b)

/-- Enum identifier of the TypeScript emitter. -/
def tsEnumIdent (context : List Json) : Except String String := do
  let a ← sentenceCaseJs (context.getD 1 .undefValue)
  let b ← sentenceCaseJs (context.getD 0 .undefValue)
  .ok (a ++ b)

/-- Enum identifier of the Python emitter. -/
def pyEnumIdent (context : List Json) : Except String String := do
  let a ← sentenceCaseJs (context.getD 1 .undefValue)
  let b ← sentenceCaseJs (context.getD 0 .undefValue)
  .ok (a ++ b)

/-! ## Rust emitter (`createRustComm`) -/

/-- The object-visitor callback of the Rust emitter: doc comment (node
description, or "Context0 in Context1"), then either a `serde_json::Value`
alias for a property-less `additionalProperties: true` node, or a struct
with one field per property, `Option`-wrapped unless listed in
`required`. -/
def rustObjectCallback (contracts : List Json) (context : List Json)
    (o : Json) : Except String (List String) :=
  match o with
  | .obj fs => do
    let desc := (JObj.find fs "description").getD .undefValue
    let comment ← (if desc.truthy then formatCommentJ "/// " desc
      else do
        let a ← sentenceCaseJs (context.getD 0 .undefValue)
        let b ← sentenceCaseJs (context.getD 1 .undefValue)
        .ok (formatComment "/// " (a ++ " in " ++ b)))
    let propsJ := (JObj.find fs "properties").getD .undefValue
    let props ← jkeys propsJ
    if props.length = 0 ∧
        (JObj.find fs "additionalProperties").getD .undefValue = .bool true then do
      let nm ← rustObjectIdent context fs
      .ok [comment, "pub type " ++ nm ++ " = serde_json::Value;\n\n"]
    else do
      let nm ← rustObjectIdent context fs
      let fieldsOut ← emitAllIdx props (fun i key => do
        let prop ← jfield propsJ key
        let pdesc ← jfield prop "description"
        let dcomment ← (if pdesc.truthy then formatCommentJ "\t/// " pdesc
          else .ok "")
        let req := (JObj.find fs "required").getD .undefValue
        let isOpt ← (if !req.truthy then pure true
          else do
            let b ← jincludes req key
            pure !b)
        let tyStr ← (if isOpt then do
            let t ← deriveType contracts RustTypeMap (.str key) prop
            pure ("Option<" ++ t ++ ">")
          else deriveType contracts RustTypeMap (.str key) prop)
        let sep := if i < props.length - 1 then ",\n" else ""
        .ok (dcomment ++ "\tpub " ++ key ++ ": " ++ tyStr ++ sep ++ "\n"))
      .ok [comment, "#[derive(Debug, Serialize, Deserialize, PartialEq)]\n",
        "pub struct " ++ nm ++ " \x7b\n", fieldsOut, "\x7d\n\n"]
  | _ => .error "TypeError"

/-- The enum-visitor callback of the Rust emitter. -/
def rustEnumCallback (context : List Json) (values : Json) :
    Except String (List String) := do
  let a ← sentenceCaseJs (context.getD 0 .undefValue)
  let b ← sentenceCaseJs (context.getD 1 .undefValue)
  let comment := formatComment "/// " ("Possible values for " ++ a ++ " in " ++ b)
  let ident ← rustEnumIdent context
  let vals := jsLoopElems values
  let body ← emitAllIdx vals (fun i value => do
    let pv ← sentenceCaseJs value
    let sep := if i < vals.length - 1 then ",\n\n" else "\n"
    .ok ("\t#[serde(rename = \"" ++ jdisplay value ++ "\")]\n\t" ++ pv ++ sep))
  .ok [comment, "#[derive(Debug, Serialize, Deserialize, PartialEq)]\n",
    "pub enum " ++ ident ++ " \x7b\n", body, "\x7d\n\n"]

/-- The generated-file header of the Rust emitter (`year` stands for the
run-time `new Date().getFullYear()` of the source). -/
def rustHeader (year name : String) : String :=
  "/*---------------------------------------------------------------------------------------------\n" ++
  " *  Copyright (C) " ++ year ++ " Posit Software, PBC. All rights reserved.\n" ++
  " *--------------------------------------------------------------------------------------------*/\n" ++
  "\n//\n// AUTO-GENERATED from " ++ name ++ ".json; do not edit.\n//\n\n" ++
  "use serde::Deserialize;\nuse serde::Serialize;\n\n"

/-- The shared-type alias section of the Rust emitter.  Note that the
guard reads `source.components.schemas` but the loop body reads
`backend.components.schemas`, exactly as in the source. -/
def rustAliasSection (contracts : List Json) (backend source : Json) :
    Except String String := do
  let comp ← jfield source "components"
  if comp.truthy then do
    let sch ← jfield comp "schemas"
    if sch.truthy then do
      let bcomp ← jfield backend "components"
      let bsch ← jfield bcomp "schemas"
      let keys ← jkeys bsch
      emitAll keys (fun key => do
        let schema ← jfield bsch key
        let ty ← jfield schema "type"
        if ty ≠ .str "object" then do
          let desc ← jfield schema "description"
          let comment ← formatCommentJ "/// " desc
          let nmJ ← jfield schema "name"
          let t ← deriveType contracts RustTypeMap
            (if nmJ.truthy then nmJ else .str key) schema
          .ok (comment ++ "type " ++ snakeCaseToSentenceCase key ++ " = " ++
            t ++ ";\n\n")
        else .ok "")
    else .ok ""
  else .ok ""

/-- The per-method `{Method}Params` struct section of the Rust emitter. -/
def rustParamsSection (contracts : List Json) (source : Json) :
    Except String String := do
  let ms ← jfield source "methods"
  let mlist ← jlist ms
  emitAll mlist (fun method => do
    let mp ← jfield method "params"
    let mplen ← jlength mp
    if jgtZero mplen then do
      let mname ← jfield method "name"
      let mn ← sentenceCaseJs mname
      let comment := formatComment "/// " ("Parameters for the " ++ mn ++ " method.")
      let plist := jsLoopElems mp
      let body ← emitAllIdx plist (fun i param => do
        let pdesc ← jfield param "description"
        let dcomment ← (if pdesc.truthy then formatCommentJ "\t/// " pdesc
          else .ok "")
        let pschema ← jfield param "schema"
        let penum ← jfield pschema "enum"
        let pname ← jfield param "name"
        let line ← (if penum.truthy then do
            let pn ← sentenceCaseJs pname
            pure ("\tpub " ++ jdisplay pname ++ ": " ++ mn ++ pn ++ ",\n")
          else do
            let pty ← jfield pschema "type"
            let isEmptyObj ← (if pty = .str "object" then do
                let pprops ← jfield pschema "properties"
                let ks ← jkeys pprops
                pure (decide (ks.length = 0))
              else pure false)
            if isEmptyObj then
              pure ("\tpub " ++ jdisplay pname ++ ": serde_json::Value,\n")
            else do
              let t ← deriveType contracts RustTypeMap pname pschema
              pure ("\tpub " ++ jdisplay pname ++ ": " ++ t ++ ",\n"))
        let sep := if i < plist.length - 1 then "\n" else ""
        .ok (dcomment ++ line ++ sep))
      .ok (comment ++ "#[derive(Debug, Serialize, Deserialize, PartialEq)]\n" ++
        "pub struct " ++ mn ++ "Params \x7b\n" ++ body ++ "\x7d\n\n")
    else .ok "")

/-- `createRustComm`: the Rust emitter. -/
def createRustComm (year name : String) (frontend backend : Json) :
    Except String String := do
  let contracts := [backend, frontend]
  let perSource ← emitAll contracts (fun source =>
    if !source.truthy then .ok ""
    else do
      let aliases ← rustAliasSection contracts backend source
      let objs ← objectVisitor (rustObjectCallback contracts) [] source
      let enums ← enumVisitor rustEnumCallback [] source
      .ok (aliases ++ String.join objs ++ String.join enums))
  let params ← emitAll [backend, frontend] (fun source =>
    if !source.truthy then .ok ""
    else rustParamsSection contracts source)
  let rpcs ← (if backend.truthy then do
      let ms ← jfield backend "methods"
      let mlist ← jlist ms
      let reqBody ← emitAll mlist (fun method => do
        let msum ← jfield method "summary"
        let c1 ← (if msum.truthy then do
            let base ← formatCommentJ "\t/// " msum
            let mdesc ← jfield method "description"
            if mdesc.truthy then do
              let d ← formatCommentJ "\t/// " mdesc
              pure (base ++ "\t///\n" ++ d)
            else pure base
          else pure "")
        let mname ← jfield method "name"
        let mn ← sentenceCaseJs mname
        let mp ← jfield method "params"
        let mplen ← jlength mp
        let tail := if jgtZero mplen then "(" ++ mn ++ "Params),\n\n" else ",\n\n"
        .ok (c1 ++ "\t#[serde(rename = \"" ++ jdisplay mname ++ "\")]\n\t" ++
          mn ++ tail))
      let repBody ← emitAll mlist (fun method => do
        let mres ← jfield method "result"
        let schema ← jfield mres "schema"
        if schema.truthy then do
          let sdesc ← jfield schema "description"
          let c ← (if sdesc.truthy then formatCommentJ "\t/// " sdesc else pure "")
          let mname ← jfield method "name"
          let mn ← sentenceCaseJs mname
          let sty ← jfield schema "type"
          let payload ← (if sty = .str "object" then do
              let snm ← jfield schema "name"
              let n ← sentenceCaseJs snm
              pure ("(" ++ n ++ "),\n\n")
            else pure ("(" ++ tmGet RustTypeMap (jdisplay sty) ++ "),\n\n"))
          .ok (c ++ "\t" ++ mn ++ "Reply" ++ payload)
        else .ok "")
      .ok ("/**\n * RPC request types for the " ++ name ++ " comm\n */\n" ++
        "#[derive(Debug, Serialize, Deserialize, PartialEq)]\n" ++
        "#[serde(tag = \"method\", content = \"params\")]\n" ++
        "pub enum " ++ snakeCaseToSentenceCase name ++ "RpcRequest \x7b\n" ++
        reqBody ++ "\x7d\n\n" ++
        "/**\n * RPC Reply types for the " ++ name ++ " comm\n */\n" ++
        "#[derive(Debug, Serialize, Deserialize, PartialEq)]\n" ++
        "#[serde(tag = \"method\", content = \"result\")]\n" ++
        "pub enum " ++ snakeCaseToSentenceCase name ++ "RpcReply \x7b\n" ++
        repBody ++ "\x7d\n\n")
    else pure "")
  let events ← (if frontend.truthy then do
      let ms ← jfield frontend "methods"
      let mlist ← jlist ms
      let body ← emitAll mlist (fun method => do
        let mname ← jfield method "name"
        let mn ← sentenceCaseJs mname
        let mp ← jfield method "params"
        let mplen ← jlength mp
        let tail := if jgtZero mplen then "(" ++ mn ++ "Params),\n\n" else ",\n\n"
        .ok ("\t#[serde(rename = \"" ++ jdisplay mname ++ "\")]\n\t" ++ mn ++ tail))
      .ok ("/**\n * Front-end events for the " ++ name ++ " comm\n */\n" ++
        "#[derive(Debug, Serialize, Deserialize, PartialEq)]\n" ++
        "#[serde(tag = \"method\", content = \"params\")]\n" ++
        "pub enum " ++ snakeCaseToSentenceCase name ++ "Event \x7b\n" ++
        body ++ "\x7d\n\n")
    else pure "")
  .ok (rustHeader year name ++ perSource ++ params ++ rpcs ++ events)

/-! ## Python emitter (`createPythonComm`) -/

/-- The generated-file header of the Python emitter. -/
def pyHeader (year name : String) : String :=
  "#\n# Copyright (C) " ++ year ++ " Posit Software, PBC. All rights reserved.\n#\n\n" ++
  "#\n# AUTO-GENERATED from " ++ name ++ ".json; do not edit.\n#\n\n" ++
  "import enum\nfrom dataclasses import dataclass, field\nfrom typing import Dict, List, Union\n" ++
  "JsonData = Union[Dict[str, \"JsonData\"], List[\"JsonData\"], str, int, float, bool, None]\n\n"

/-- The object-visitor callback of the Python emitter: a `JsonData` alias
for a property-less `additionalProperties: true` node, otherwise a
dataclass with a docstring and one field per property, `Optional`-wrapped
unless listed in `required`. -/
def pyObjectCallback (contracts : List Json) (context : List Json)
    (o : Json) : Except String (List String) :=
  match o with
  | .obj fs => do
    let nm ← pyObjectIdent context fs
    let propsJ := (JObj.find fs "properties").getD .undefValue
    let props ← jkeys propsJ
    if props.length = 0 ∧
        (JObj.find fs "additionalProperties").getD .undefValue = .bool true then
      .ok [nm ++ " = JsonData\n"]
    else do
      let desc := (JObj.find fs "description").getD .undefValue
      let docstring ← (if desc.truthy then do
          let c ← formatCommentJ "    " desc
          pure ("    \"\"\"\n" ++ c ++ "    \"\"\"\n\n")
        else do
          let a ← sentenceCaseJs (context.getD 0 .undefValue)
          let b ← sentenceCaseJs (context.getD 1 .undefValue)
          pure ("    \"\"\"\n" ++ formatComment "    " (a ++ " in " ++ b) ++
            "    \"\"\"\n\n"))
      let fieldsOut ← emitAll props (fun prop => do
        let schema ← jfield propsJ prop
        let req := (JObj.find fs "required").getD .undefValue
        let isOpt ← (if !req.truthy then pure true
          else do
            let b ← jincludes req prop
            pure !b)
        let tyStr ← (if isOpt then do
            let t ← deriveType contracts PythonTypeMap (.str prop) schema
            pure ("Optional[" ++ t ++ "]")
          else deriveType contracts PythonTypeMap (.str prop) schema)
        let sdesc ← jfield schema "description"
        let defaultLine := if isOpt then "            \"default\": None,\n" else ""
        .ok ("    " ++ prop ++ ": " ++ tyStr ++ " = field(\n        metadata=\x7b\n" ++
          "            \"description\": \"" ++ jdisplay sdesc ++ "\",\n" ++
          defaultLine ++ "        \x7d\n    )\n\n"))
      .ok ["@dataclass\n", "class " ++ nm ++ ":\n", docstring, fieldsOut, "\n\n"]
  | _ => .error "TypeError"

/-- The enum-visitor callback of the Python emitter. -/
def pyEnumCallback (context : List Json) (values : Json) :
    Except String (List String) := do
  let ident ← pyEnumIdent context
  let a ← sentenceCaseJs (context.getD 0 .undefValue)
  let b ← sentenceCaseJs (context.getD 1 .undefValue)
  let comment := formatComment "    " ("Possible values for " ++ a ++ " in " ++ b)
  let vals := jsLoopElems values
  let body ← emitAllIdx vals (fun i value => do
    let pv ← sentenceCaseJs value
    let sep := if i < vals.length - 1 then "\n\n" else "\n"
    .ok ("    " ++ pv ++ " = \"" ++ jdisplay value ++ "\"" ++ sep))
  .ok ["@enum.unique\n", "class " ++ ident ++ "(str, enum.Enum):\n",
    "    \"\"\"\n", comment, "    \"\"\"\n", "\n", body, "\n\n"]

/-- The backend `{Comm}Request` enumeration of the Python emitter (entries
only for methods with a truthy `result`). -/
def pyRequestEnumSection (name : String) (backend : Json) :
    Except String String := do
  let ms ← jfield backend "methods"
  let mlist ← jlist ms
  let body ← emitAll mlist (fun method => do
    let mres ← jfield method "result"
    if mres.truthy then do
      let msum ← jfield method "summary"
      let c ← formatCommentJ "    # " msum
      let mname ← jfield method "name"
      let mn ← sentenceCaseJs mname
      .ok (c ++ "    " ++ mn ++ " = \"" ++ jdisplay mname ++ "\"\n\n")
    else .ok "")
  .ok ("@enum.unique\nclass " ++ snakeCaseToSentenceCase name ++
    "Request(str, enum.Enum):\n    \"\"\"\n" ++
    "    An enumeration of all the possible requests that can be sent to the " ++
    name ++ " comm.\n    \"\"\"\n\n" ++ body)

/-- The backend per-method `{Method}Params` and `{Method}Request`
dataclasses of the Python emitter.  A backend method without a truthy
`description` throws a named error here. -/
def pyRequestClassesSection (contracts : List Json) (name : String)
    (backend : Json) : Except String String := do
  let ms ← jfield backend "methods"
  let mlist ← jlist ms
  emitAll mlist (fun method => do
    let mdesc ← jfield method "description"
    if !mdesc.truthy then do
      let mname ← jfield method "name"
      .error ("No description for \x27" ++ jdisplay mname ++
        "\x27; please add a description to the schema")
    else do
      let mname ← jfield method "name"
      let mn ← sentenceCaseJs mname
      let dcomment ← formatCommentJ "    " mdesc
      let mp ← jfield method "params"
      let plist ← jlist mp
      let paramsOut ← emitAll plist (fun param => do
        let pschema ← jfield param "schema"
        let penum ← jfield pschema "enum"
        let pname ← jfield param "name"
        let line ← (if penum.truthy then do
            let pn ← sentenceCaseJs pname
            pure ("    " ++ jdisplay pname ++ ": " ++ mn ++ pn)
          else do
            let t ← deriveType contracts PythonTypeMap pname pschema
            pure ("    " ++ jdisplay pname ++ ": " ++ t))
        let pdesc ← jfield param "description"
        .ok (line ++ " = field(\n        metadata=\x7b\n" ++
          "            \"description\": \"" ++ jdisplay pdesc ++ "\",\n" ++
          "        \x7d\n    )\n\n"))
      .ok ("@dataclass\nclass " ++ mn ++ "Params:\n    \"\"\"\n" ++ dcomment ++
        "    \"\"\"\n\n" ++ paramsOut ++
        "@dataclass\nclass " ++ mn ++ "Request:\n    \"\"\"\n" ++ dcomment ++
        "    \"\"\"\n\n" ++
        "    def __post_init__(self):\n" ++
        "        \"\"\" Revive RPC parameters after initialization \"\"\"\n" ++
        "        if isinstance(self.params, dict):\n" ++
        "             self.params = " ++ mn ++ "Params(**self.params)\n\n" ++
        "    params: " ++ mn ++ "Params = field(\n        metadata=\x7b\n" ++
        "            \"description\": \"Parameters to the " ++ mn ++ " method\"\n" ++
        "        \x7d\n    )\n\n" ++
        "    method: " ++ snakeCaseToSentenceCase name ++
        "Request = field(\n        metadata=\x7b\n" ++
        "            \"description\": \"The JSON-RPC method name (" ++
        jdisplay mname ++ ")\"\n        \x7d,\n        default=" ++
        snakeCaseToSentenceCase name ++ "Request." ++ mn ++ "\n    )\n\n" ++
        "    jsonrpc: str = field(\n        metadata=\x7b\n" ++
        "            \"description\": \"The JSON-RPC version specifier\"\n" ++
        "        \x7d,\n        default=\"2.0\"    )\n\n"))

/-- The frontend `{Comm}Event` enumeration and per-event `{Method}Params`
dataclasses of the Python emitter. -/
def pyFrontendSection (contracts : List Json) (name : String)
    (frontend : Json) : Except String String := do
  let ms ← jfield frontend "methods"
  let mlist ← jlist ms
  let enumBody ← emitAll mlist (fun method => do
    let msum ← jfield method "summary"
    let c ← formatCommentJ "    # " msum
    let mname ← jfield method "name"
    let mn ← sentenceCaseJs mname
    .ok (c ++ "    " ++ mn ++ " = \"" ++ jdisplay mname ++ "\"\n\n"))
  let paramClasses ← emitAll mlist (fun method => do
    let mp ← jfield method "params"
    let mplen ← jlength mp
    if jgtZero mplen then do
      let mname ← jfield method "name"
      let mn ← sentenceCaseJs mname
      let msum ← jfield method "summary"
      let sc ← formatCommentJ "    " msum
      let plist ← jlist mp
      let body ← emitAll plist (fun param => do
        let pschema ← jfield param "schema"
        let penum ← jfield pschema "enum"
        let pname ← jfield param "name"
        let line ← (if penum.truthy then do
            let pn ← sentenceCaseJs pname
            pure ("    " ++ jdisplay pname ++ ": " ++ mn ++ pn)
          else do
            let t ← deriveType contracts PythonTypeMap pname pschema
            pure ("    " ++ jdisplay pname ++ ": " ++ t))
        let pdesc ← jfield param "description"
        .ok (line ++ " = field(\n        metadata=\x7b\n" ++
          "            \"description\": \"" ++ jdisplay pdesc ++ "\"\n" ++
          "        \x7d\n    )\n\n"))
      .ok ("@dataclass\nclass " ++ mn ++ "Params:\n    \"\"\"\n" ++ sc ++
        "    \"\"\"\n\n" ++ body)
    else .ok "")
  .ok ("@enum.unique\nclass " ++ snakeCaseToSentenceCase name ++
    "Event(str, enum.Enum):\n    \"\"\"\n" ++
    "    An enumeration of all the possible events that can be sent from the " ++
    name ++ " comm.\n    \"\"\"\n\n" ++ enumBody ++ paramClasses)

/-- `createPythonComm`: the Python emitter. -/
def createPythonComm (year name : String) (frontend backend : Json) :
    Except String String := do
  let contracts := [backend, frontend]
  let perSource ← emitAll contracts (fun source =>
    if !source.truthy then pure ""
    else do
      let objs ← objectVisitor (pyObjectCallback contracts) [] source
      let enums ← enumVisitor pyEnumCallback [] source
      pure (String.join objs ++ String.join enums))
  let requestEnum ← (if backend.truthy then pyRequestEnumSection name backend
    else pure "")
  let requestClasses ← (if backend.truthy then
      pyRequestClassesSection contracts name backend
    else pure "")
  let frontendOut ← (if frontend.truthy then
      pyFrontendSection contracts name frontend
    else pure "")
  .ok (pyHeader year name ++ perSource ++ requestEnum ++ requestClasses ++
    frontendOut)

/-! ## TypeScript emitter (`createTypescriptInterface`, `createTypescriptComm`) -/

/-- `createTypescriptInterface`: emit one `export interface` for an object
schema.  Throws named errors for a falsy description, for a missing
property list without `additionalProperties`, and for any property whose
schema lacks a truthy description. -/
def createTypescriptInterface (contracts : List Json)
    (name description properties required additionalProperties : Json) :
    Except String (List String) := do
  if !description.truthy then
    .error ("No description for \x27" ++ jdisplay name ++
      "\x27; please add a description to the schema")
  else do
    let comment ← formatCommentJ " * " description
    let nm ← sentenceCaseJs name
    let emptyProps ← (if !properties.truthy then pure true
      else do
        let ks ← jkeys properties
        pure (decide (ks.length = 0)))
    let anyPart ← (if emptyProps then
        if !additionalProperties.truthy then
          .error ("No properties for \x27" ++ jdisplay name ++
            "\x27; please add properties to the schema")
        else pure "\t[k: string]: unknown;\n"
      else pure "")
    let ks ← jkeys properties
    let fieldsOut ← emitAll ks (fun prop => do
      let schema ← jfield properties prop
      let sdesc ← jfield schema "description"
      if !sdesc.truthy then
        .error ("No description for the \x27" ++ jdisplay name ++ "." ++ prop ++
          "\x27 value; please add a description to the schema")
      else do
        let c ← formatCommentJ "\t * " sdesc
        let reqd ← jincludes required prop
        let opt := if reqd then "" else "?"
        let sty ← jfield schema "type"
        let tyStr ← (if sty = .str "object" then do
            let snm ← jfield schema "name"
            sentenceCaseJs snm
          else if sty = .str "string" then do
            let senum ← jfield schema "enum"
            if senum.truthy then do
              let a ← sentenceCaseJs name
              pure (a ++ snakeCaseToSentenceCase prop)
            else deriveType contracts TypescriptTypeMap (.str prop) schema
          else deriveType contracts TypescriptTypeMap (.str prop) schema)
        pure ("\t/**\n" ++ c ++ "\t */\n" ++ "\t" ++ prop ++ opt ++ ": " ++
          tyStr ++ ";\n\n"))
    .ok ["/**\n" ++ comment ++ " */\n", "export interface " ++ nm ++ " \x7b\n",
      anyPart, fieldsOut, "\x7d\n\n"]

/-- The object-visitor callback of the TypeScript emitter: select the
name, fall back to "Context0 in Context1" for the description, default
`additionalProperties` to `false` and `required` to `[]`, and delegate to
`createTypescriptInterface`. -/
def tsObjectCallback (contracts : List Json) (context : List Json)
    (o : Json) : Except String (List String) :=
  match o with
  | .obj fs => do
    let nameJ := tsObjectName context fs
    let desc := (JObj.find fs "description").getD .undefValue
    let descJ ← (if desc.truthy then pure desc
      else do
        let a ← sentenceCaseJs (context.getD 0 .undefValue)
        let b ← sentenceCaseJs (context.getD 1 .undefValue)
        pure (Json.str (a ++ " in " ++ b)))
    let ap := (JObj.find fs "additionalProperties").getD .undefValue
    let apJ := if ap.truthy then ap else .bool false
    let req := (JObj.find fs "required").getD .undefValue
    let reqJ := if req.truthy then req else jarr []
    createTypescriptInterface contracts nameJ descJ
      ((JObj.find fs "properties").getD .undefValue) reqJ apJ
  | _ => .error "TypeError"

/-- The enum-visitor callback of the TypeScript emitter. -/
def tsEnumCallback (context : List Json) (values : Json) :
    Except String (List String) := do
  let a ← sentenceCaseJs (context.getD 0 .undefValue)
  let b ← sentenceCaseJs (context.getD 1 .undefValue)
  let comment := formatComment " * " ("Possible values for " ++ a ++ " in " ++ b)
  let ident ← tsEnumIdent context
  let vals := jsLoopElems values
  let body ← emitAllIdx vals (fun i value => do
    let pv ← sentenceCaseJs value
    let sep := if i < vals.length - 1 then ",\n" else "\n"
    .ok ("\t" ++ pv ++ " = \x27" ++ jdisplay value ++ "\x27" ++ sep))
  .ok ["/**\n" ++ comment ++ " */\n",
    "export enum " ++ ident ++ " \x7b\n", body, "\x7d\n\n"]

/-- The generated-file header of the TypeScript emitter. -/
def tsHeader (year name : String) : String :=
  "/*---------------------------------------------------------------------------------------------\n" ++
  " *  Copyright (C) " ++ year ++ " Posit Software, PBC. All rights reserved.\n" ++
  " *--------------------------------------------------------------------------------------------*/\n" ++
  "\n//\n// AUTO-GENERATED from " ++ name ++ ".json; do not edit.\n//\n\n"

/-- The shared-type alias section of the TypeScript emitter.  As in the
Rust emitter, the guard reads `source.components.schemas` but the loop
reads `backend.components.schemas`, exactly as in the source. -/
def tsAliasSection (contracts : List Json) (backend source : Json) :
    Except String String := do
  let comp ← jfield source "components"
  if comp.truthy then do
    let sch ← jfield comp "schemas"
    if sch.truthy then do
      let bcomp ← jfield backend "components"
      let bsch ← jfield bcomp "schemas"
      let keys ← jkeys bsch
      emitAll keys (fun key => do
        let schema ← jfield bsch key
        let ty ← jfield schema "type"
        if ty ≠ .str "object" then do
          let desc ← jfield schema "description"
          let comment ← formatCommentJ " * " desc
          let t ← deriveType contracts TypescriptTypeMap (.str key) schema
          .ok ("/**\n" ++ comment ++ " */\n" ++ "export type " ++
            snakeCaseToSentenceCase key ++ " = " ++ t ++ ";\n\n")
        else .ok "")
    else .ok ""
  else .ok ""

/-- The frontend event section of the TypeScript emitter: one
`{Method}Event` interface per frontend method without a result, and the
`{Comm}Event` wire-name enumeration collected along the way. -/
def tsEventsSection (contracts : List Json) (name : String) (frontend : Json) :
    Except String String := do
  let ms ← jfield frontend "methods"
  let mlist ← jlist ms
  let pieces ← mlist.foldlM (fun (acc : List String × String) method => do
      let mres ← jfield method "result"
      if mres.truthy then pure acc
      else do
        let mname ← jfield method "name"
        let sentenceName ← sentenceCaseJs mname
        let entry := "\t" ++ sentenceName ++ " = \x27" ++ jdisplay mname ++ "\x27"
        let msum ← jfield method "summary"
        let comment := formatComment " * " ("Event: " ++ jdisplay msum)
        let mp ← jfield method "params"
        let plist ← jlist mp
        let body ← emitAll plist (fun param => do
          let pdesc ← jfield param "description"
          let pc := formatComment "\t * " (jdisplay pdesc)
          let pname ← jfield param "name"
          let pschema ← jfield param "schema"
          let pty ← jfield pschema "type"
          let tyStr ← (if pty = .str "string" then do
              let pe ← jfield pschema "enum"
              if pe.truthy then do
                let mn ← sentenceCaseJs mname
                let pn ← sentenceCaseJs pname
                pure (mn ++ pn)
              else deriveType contracts TypescriptTypeMap pname pschema
            else deriveType contracts TypescriptTypeMap pname pschema)
          .ok ("\t/**\n" ++ pc ++ "\t */\n" ++ "\t" ++ jdisplay pname ++ ": " ++
            tyStr ++ ";\n\n"))
        pure (acc.1 ++ [entry],
          acc.2 ++ "/**\n" ++ comment ++ " */\n" ++ "export interface " ++
          sentenceName ++ "Event \x7b\n" ++ body ++ "\x7d\n\n"))
    (([], "") : List String × String)
  .ok (pieces.2 ++ "export enum " ++ snakeCaseToSentenceCase name ++
    "Event \x7b\n" ++ String.intercalate ",\n" pieces.1 ++ "\n\x7d\n\n")

/-- The `Positron{Comm}Comm` class section of the TypeScript emitter. -/
def tsClassSection (contracts : List Json) (name : String)
    (frontend backend : Json) : Except String String := do
  let head := "export class Positron" ++ snakeCaseToSentenceCase name ++
    "Comm extends PositronBaseComm \x7b\n"
  let ctorHead := "\tconstructor(instance: IRuntimeClientInstance<any, any>) \x7b\n" ++
    "\t\tsuper(instance);\n"
  let ctorBody ← (if frontend.truthy then do
      let ms ← jfield frontend "methods"
      let mlist ← jlist ms
      emitAll mlist (fun method => do
        let mres ← jfield method "result"
        if mres.truthy then pure ""
        else do
          let mname ← jfield method "name"
          let mn ← sentenceCaseJs mname
          let mp ← jfield method "params"
          let _ ← jlength mp
          let plist := jsLoopElems mp
          let args ← emitAllIdx plist (fun i param => do
            let pname ← jfield param "name"
            let sep := if i < plist.length - 1 then ", " else ""
            .ok ("\x27" ++ jdisplay pname ++ "\x27" ++ sep))
          .ok ("\t\tthis.onDid" ++ mn ++ " = super.createEventEmitter(\x27" ++
            jdisplay mname ++ "\x27, [" ++ args ++ "]);\n"))
    else pure "")
  let methodsOut ← (if backend.truthy then do
      let ms ← jfield backend "methods"
      let mlist ← jlist ms
      emitAll mlist (fun method => do
        let msum ← jfield method "summary"
        let sc ← formatCommentJ "\t * " msum
        let mdesc ← jfield method "description"
        let dBlock ← (if mdesc.truthy then do
            let d ← formatCommentJ "\t * " mdesc
            pure ("\t *\n" ++ d)
          else pure "")
        let mp ← jfield method "params"
        let _ ← jlength mp
        let plist := jsLoopElems mp
        let paramComments ← emitAll plist (fun param => do
          let pname ← jfield param "name"
          let pn ← camelJs pname
          let pdesc ← jfield param "description"
          .ok (formatComment "\t * " ("@param " ++ pn ++ " " ++ jdisplay pdesc)))
        let retComment ← (do
          let mres ← jfield method "result"
          if mres.truthy then do
            let rsch ← jfield mres "schema"
            if rsch.truthy then do
              let rdesc ← jfield rsch "description"
              pure (formatComment "\t * " ("@returns " ++ jdisplay rdesc))
            else pure ""
          else pure "")
        let mname ← jfield method "name"
        let mc ← camelJs mname
        let argsOut ← emitAllIdx plist (fun i param => do
          let pname ← jfield param "name"
          let pschema ← jfield param "schema"
          if !pschema.truthy then
            .error ("No schema for \x27" ++ jdisplay mname ++
              "\x27 parameter \x27" ++ jdisplay pname ++ "\x27")
          else do
            let pn ← camelJs pname
            let sty ← jfield pschema "type"
            let ty ← (if sty = .str "string" then do
                let pe ← jfield pschema "enum"
                if pe.truthy then do
                  let mnP ← sentenceCaseJs mname
                  let pnP ← sentenceCaseJs pname
                  pure (mnP ++ pnP)
                else deriveType contracts TypescriptTypeMap pname pschema
              else deriveType contracts TypescriptTypeMap pname pschema)
            let sep := if i < plist.length - 1 then ", " else ""
            .ok (pn ++ ": " ++ ty ++ sep))
        let retTy ← (do
          let mres ← jfield method "result"
          if mres.truthy then do
            let rsch ← jfield mres "schema"
            if rsch.truthy then do
              let rty ← jfield rsch "type"
              if rty = .str "object" then do
                let rnm ← jfield rsch "name"
                sentenceCaseJs rnm
              else deriveType contracts TypescriptTypeMap mname rsch
            else pure "void"
          else pure "void")
        let wireNames ← emitAllIdx plist (fun i param => do
          let pname ← jfield param "name"
          let sep := if i < plist.length - 1 then ", " else ""
          .ok ("\x27" ++ jdisplay pname ++ "\x27" ++ sep))
        let wireArgs ← emitAllIdx plist (fun i param => do
          let pname ← jfield param "name"
          let pn ← camelJs pname
          let sep := if i < plist.length - 1 then ", " else ""
          .ok (pn ++ sep))
        .ok ("\t/**\n" ++ sc ++ dBlock ++ "\t *\n" ++ paramComments ++ "\t *\n" ++
          retComment ++ "\t */\n" ++
          "\t" ++ mc ++ "(" ++ argsOut ++ "): Promise<" ++ retTy ++ "> \x7b\n" ++
          "\t\treturn super.performRpc(\x27" ++ jdisplay mname ++ "\x27, [" ++
          wireNames ++ "], [" ++ wireArgs ++ "]);\n" ++ "\t\x7d\n\n"))
    else pure "")
  let onDids ← (if frontend.truthy then do
      let ms ← jfield frontend "methods"
      let mlist ← jlist ms
      let body ← emitAll mlist (fun method => do
        let mres ← jfield method "result"
        if mres.truthy then pure ""
        else do
          let msum ← jfield method "summary"
          let sc ← formatCommentJ "\t * " msum
          let mdesc ← jfield method "description"
          let dBlock ← (if mdesc.truthy then do
              let d ← formatCommentJ "\t * " mdesc
              pure ("\t *\n" ++ d)
            else pure "")
          let mname ← jfield method "name"
          let mn ← sentenceCaseJs mname
          .ok ("\t/**\n" ++ sc ++ dBlock ++ "\t */\n" ++ "\tonDid" ++ mn ++
            ": Event<" ++ mn ++ "Event>;\n"))
      pure ("\n" ++ body)
    else pure "")
  .ok (head ++ ctorHead ++ ctorBody ++ "\t\x7d\n\n" ++ methodsOut ++ onDids ++
    "\x7d\n\n")

/-- `createTypescriptComm`: the TypeScript emitter.  The source first
reads a `{name}.json` metadata file whose parsed value is never used
afterwards; that read is not modelled. -/
def createTypescriptComm (year name : String) (frontend backend : Json) :
    Except String String := do
  let contracts := [backend, frontend]
  let imports :=
    (if frontend.truthy then
      "import \x7b Event \x7d from \x27vs/base/common/event\x27;\n"
    else "") ++
    "import \x7b PositronBaseComm \x7d from \x27vs/workbench/services/languageRuntime/common/positronBaseComm\x27;\n" ++
    "import \x7b IRuntimeClientInstance \x7d from \x27vs/workbench/services/languageRuntime/common/languageRuntimeClientInstance\x27;\n\n"
  let perSource ← emitAll contracts (fun source =>
    if !source.truthy then pure ""
    else do
      let objs ← objectVisitor (tsObjectCallback contracts) [] source
      let enums ← enumVisitor tsEnumCallback [] source
      pure (String.join objs ++ String.join enums))
  let aliases ← emitAll [backend, frontend] (fun source =>
    if !source.truthy then pure ""
    else tsAliasSection contracts backend source)
  let eventsOut ← (if frontend.truthy then tsEventsSection contracts name frontend
    else pure "")
  let classOut ← tsClassSection contracts name frontend backend
  .ok (tsHeader year name ++ imports ++ perSource ++ aliases ++ eventsOut ++
    classOut)

/-! ## Per-Comm driver (`createCommInterface`, per-Comm body) -/

/-- An output target of the generator. -/
inductive Target where
  | ts
  | rust
  | python
deriving DecidableEq

/-- The per-Comm body of `createCommInterface`: the TypeScript text is
fully accumulated, then written; then the Rust text is accumulated and
written; then the Python text.  A generation error therefore aborts the
Comm, leaving exactly the files of the targets that had already completed
written.  The returned list holds the files written for this Comm in write
order; the option holds the thrown error, if any.  (Console output and the
external `black` formatting step do not affect which files are written.) -/
def processComm (year name : String) (frontend backend : Json) :
    List (Target × String) × Option String :=
  match createTypescriptComm year name frontend backend with
  | .error e => ([], some e)
  | .ok ts =>
    match createRustComm year name frontend backend with
    | .error e => ([(.ts, ts)], some e)
    | .ok rust =>
      match createPythonComm year name frontend backend with
      | .error e => ([(.ts, ts), (.rust, rust)], some e)
      | .ok py => ([(.ts, ts), (.rust, rust), (.python, py)], none)

/-! ## Concrete contracts used by the claim theorems -/

/-- Boolean prefix test on character lists. -/
def leadsList : List Char → List Char → Bool
  | [], _ => true
  | _ :: _, [] => false
  | a :: as, b :: bs => a = b && leadsList as bs

/-- Boolean substring test on character lists. -/
def containsSub (pat : List Char) : List Char → Bool
  | [] => leadsList pat []
  | c :: rest => leadsList pat (c :: rest) || containsSub pat rest

/-- A backend contract whose single method `do_it` has a summary and a
result but no `description`. -/
def noMethodDescBackend : Json := jobj [("methods", jarr [jobj [
  ("name", .str "do_it"),
  ("summary", .str "Does it"),
  ("params", jarr []),
  ("result", jobj [("schema", jobj [("type", .str "boolean"),
    ("description", .str "ok")])])]])]

/-- A frontend contract whose single parameterless event method `refresh`
has a summary but no `description`. -/
def noMethodDescFrontend : Json := jobj [("methods", jarr [jobj [
  ("name", .str "refresh"),
  ("summary", .str "Refresh it"),
  ("params", jarr [])]])]

/-- A backend contract containing an object schema `go_options` whose
property `flag` has no `description`. -/
def fieldNoDescBackend : Json := jobj [("methods", jarr [jobj [
  ("name", .str "go"),
  ("summary", .str "Go"),
  ("description", .str "Go description"),
  ("params", jarr [jobj [
    ("name", .str "opts"),
    ("description", .str "The options"),
    ("schema", jobj [
      ("type", .str "object"),
      ("name", .str "go_options"),
      ("description", .str "Options for go"),
      ("properties", jobj [("flag", jobj [("type", .str "boolean")])]),
      ("required", jarr [.str "flag"])])]]),
  ("result", jobj [("schema", jobj [("type", .str "boolean"),
    ("description", .str "ok")])])]])]

/-- A backend contract whose method `set_mode` has a parameter `mode` whose
schema is an enum of the strings `a` and `b`. -/
def setModeBackend : Json := jobj [("methods", jarr [jobj [
  ("name", .str "set_mode"),
  ("summary", .str "Set the mode"),
  ("description", .str "Sets the mode"),
  ("params", jarr [jobj [
    ("name", .str "mode"),
    ("description", .str "The mode"),
    ("schema", jobj [("type", .str "string"),
      ("enum", jarr [.str "a", .str "b"])])]]),
  ("result", jobj [("schema", jobj [("type", .str "boolean"),
    ("description", .str "ok")])])]])]

/-- A contract with no methods that declares one non-object entry `foo` in
`components.schemas`. -/
def schemasOnlyContract : Json := jobj [
  ("components", jobj [("schemas", jobj [("foo", jobj [
    ("type", .str "string"), ("description", .str "A foo")])])]),
  ("methods", jarr [])]

/-! ## C1: per-Comm atomicity of output -/

/-- C1 (counterexample): per-Comm output is not atomic.  For the Comm
`mycomm` whose backend method `do_it` lacks a description, TypeScript and
Rust generation succeed and both files are written; Python generation then
throws, so the run fails for this Comm with two of its three files already
written — contradicting "either all three of the Comm's files are written
or none are". -/
theorem perCommAtomicity_counterexample :
    ((processComm "2025" "mycomm" Json.null noMethodDescBackend).1.map
      Prod.fst) = [Target.ts, Target.rust] ∧
    (processComm "2025" "mycomm" Json.null noMethodDescBackend).2 =
      some "No description for \x27do_it\x27; please add a description to the schema" ∧
    (processComm "2025" "mycomm" Json.null noMethodDescBackend).1 ≠ [] := by
  refine ⟨by decide, by decide, by decide⟩

/-- C1 (amended): writes for a Comm form a prefix of the fixed target
order TypeScript, Rust, Python: each target's file is written only after
that target's generation fully succeeds; a generation failure prevents
writing the failing target's file and all later ones, but leaves earlier
targets' files written.  In particular the run for a Comm writes all three
files iff no emitter throws, and a TypeScript (first-target) failure
writes nothing for the Comm. -/
theorem perCommAtomicity_amended (year name : String) (frontend backend : Json) :
    ((processComm year name frontend backend).1.map Prod.fst) <+:
      [Target.ts, Target.rust, Target.python] ∧
    ((processComm year name frontend backend).2 = none ↔
      (processComm year name frontend backend).1.length = 3) ∧
    (∀ e, createTypescriptComm year name frontend backend = .error e →
      (processComm year name frontend backend).1 = []) := by
  unfold processComm
  cases hts : createTypescriptComm year name frontend backend with
  | error e => refine ⟨by simp, by simp, by simp⟩
  | ok ts =>
    cases hr : createRustComm year name frontend backend with
    | error e => exact ⟨⟨[Target.rust, Target.python], rfl⟩, by simp, by simp⟩
    | ok rust =>
      cases hp : createPythonComm year name frontend backend with
      | error e => exact ⟨⟨[Target.python], rfl⟩, by simp, by simp⟩
      | ok py => exact ⟨⟨[], by simp⟩, by simp, by simp⟩

/-- C1 (witness): at the Comm whose object field `flag` lacks a
description the TypeScript emitter fails, and the amended theorem yields
that no file at all is written for that Comm. -/
theorem perCommAtomicity_amended_witness :
    (processComm "2025" "go" Json.null fieldNoDescBackend).1 = [] :=
  (perCommAtomicity_amended "2025" "go" Json.null fieldNoDescBackend).2.2
    "No description for the \x27go_options.flag\x27 value; please add a description to the schema"
    (by decide)

/-! ## C2: fail-fast on missing documentation -/

/-- C2 (counterexample): a missing description does not abort generation.
The Comm whose frontend method `refresh` carries no description generates
successfully in all three emitters and all three files are written,
contradicting "generation for that Comm aborts with a descriptive error,
in every one of the three emitters, and no output file for that Comm is
created". -/
theorem failFastDescriptions_counterexample :
    (processComm "2025" "mycomm" noMethodDescFrontend Json.null).2 = none ∧
    ((processComm "2025" "mycomm" noMethodDescFrontend Json.null).1.map
      Prod.fst) = [Target.ts, Target.rust, Target.python] := by
  refine ⟨by decide, by decide⟩

/-- C2 (amended): the description checks are enforced only at specific
points and only by specific emitters.  An object field without a
description aborts the TypeScript emitter with a descriptive error, and
since TypeScript runs first, no file of that Comm is written.  A backend
method without a description aborts only the Python emitter, after the
TypeScript and Rust files have already been written.  A frontend method
without a description aborts nothing: all three files are written. -/
theorem failFastDescriptions_amended :
    (createTypescriptComm "2025" "go" Json.null fieldNoDescBackend =
      .error "No description for the \x27go_options.flag\x27 value; please add a description to the schema" ∧
     (processComm "2025" "go" Json.null fieldNoDescBackend).1 = []) ∧
    (createPythonComm "2025" "mycomm" Json.null noMethodDescBackend =
      .error "No description for \x27do_it\x27; please add a description to the schema" ∧
     (createTypescriptComm "2025" "mycomm" Json.null noMethodDescBackend).isOk ∧
     (createRustComm "2025" "mycomm" Json.null noMethodDescBackend).isOk ∧
     ((processComm "2025" "mycomm" Json.null noMethodDescBackend).1.map
       Prod.fst) = [Target.ts, Target.rust]) ∧
    ((processComm "2025" "mycomm" noMethodDescFrontend Json.null).2 = none) := by
  refine ⟨⟨by decide, by decide⟩, ⟨by decide, by decide, by decide, by decide⟩, by decide⟩

/-! ## C3: cross-target identifier consistency -/

/-- C3: for every naming context and every schema node, the Pascal-cased
object identifier synthesized by the TypeScript, Rust and Python emitters
is the same, and likewise the enum identifier
`Pascal(context[1]) + Pascal(context[0])`: each emitter computes the name
from the node's truthy explicit `name` if present, otherwise from the same
naming-context entries, through the same `snakeCaseToSentenceCase`
transformer. -/
theorem crossTargetIdentifierConsistency (context : List Json) (fs : JObj) :
    tsObjectIdent context fs = rustObjectIdent context fs ∧
    rustObjectIdent context fs = pyObjectIdent context fs ∧
    tsEnumIdent context = rustEnumIdent context ∧
    rustEnumIdent context = pyEnumIdent context :=
  ⟨rfl, rfl, rfl, rfl⟩

/-! ## C6: enum emission scenario -/

/-- C6: for the schema `enum: ["a","b"]` under parameter `mode` of method
`set_mode`, the enum visitor fires exactly once, with naming context
`["mode", "set_mode", "methods"]`; every emitter synthesizes the
enumeration name `Pascal("set_mode") ++ Pascal("mode") = "SetModeMode"`,
emits the two members in declared order `a` then `b`, and attaches the
literal wire string to each member (`#[serde(rename = "a")]` in Rust,
`A = "a"` in Python, `A = 'a'` in TypeScript); each generated file
contains the enumeration declaration. -/
theorem enumEmissionScenario :
    enumVisitorCollect [] setModeBackend =
      .ok [([.str "mode", .str "set_mode", .str "methods"],
        jarr [.str "a", .str "b"])] ∧
    rustEnumIdent [.str "mode", .str "set_mode", .str "methods"] =
      .ok (snakeCaseToSentenceCase "set_mode" ++ snakeCaseToSentenceCase "mode") ∧
    tsEnumIdent [.str "mode", .str "set_mode", .str "methods"] =
      .ok "SetModeMode" ∧
    pyEnumIdent [.str "mode", .str "set_mode", .str "methods"] =
      .ok "SetModeMode" ∧
    snakeCaseToSentenceCase "set_mode" ++ snakeCaseToSentenceCase "mode" =
      "SetModeMode" ∧
    rustEnumCallback [.str "mode", .str "set_mode", .str "methods"]
        (jarr [.str "a", .str "b"]) =
      .ok ["/// Possible values for Mode in SetMode\n",
        "#[derive(Debug, Serialize, Deserialize, PartialEq)]\n",
        "pub enum SetModeMode \x7b\n",
        "\t#[serde(rename = \"a\")]\n\tA,\n\n\t#[serde(rename = \"b\")]\n\tB\n",
        "\x7d\n\n"] ∧
    tsEnumCallback [.str "mode", .str "set_mode", .str "methods"]
        (jarr [.str "a", .str "b"]) =
      .ok ["/**\n * Possible values for Mode in SetMode\n */\n",
        "export enum SetModeMode \x7b\n",
        "\tA = \x27a\x27,\n\tB = \x27b\x27\n", "\x7d\n\n"] ∧
    pyEnumCallback [.str "mode", .str "set_mode", .str "methods"]
        (jarr [.str "a", .str "b"]) =
      .ok ["@enum.unique\n", "class SetModeMode(str, enum.Enum):\n",
        "    \"\"\"\n", "    Possible values for Mode in SetMode\n",
        "    \"\"\"\n", "\n", "    A = \"a\"\n\n    B = \"b\"\n", "\n\n"] ∧
    ((createRustComm "2025" "mycomm" Json.null setModeBackend).toOption.map
      (fun s => containsSub "pub enum SetModeMode \x7b\n".data s.data)) =
        some true ∧
    ((createPythonComm "2025" "mycomm" Json.null setModeBackend).toOption.map
      (fun s => containsSub "class SetModeMode(str, enum.Enum):\n".data s.data)) =
        some true ∧
    ((createTypescriptComm "2025" "mycomm" Json.null setModeBackend).toOption.map
      (fun s => containsSub "export enum SetModeMode \x7b\n".data s.data)) =
        some true := by
  set_option maxRecDepth 1000000 in
  refine ⟨by decide, by decide, by decide, by decide, by decide, by decide,
    by decide, by decide, by decide, by decide, by decide⟩

/-! ## C7: shared type aliases -/

/-- C7: the alias loops of the Rust and TypeScript emitters guard on
`source.components.schemas` but iterate `backend.components.schemas`.
For a Comm whose frontend contract declares `components.schemas` while no
backend contract exists, both emitters throw a `TypeError` (reading
`components` of `null`) instead of emitting the frontend contract's
aliases; when the backend declares the very same `components.schemas`, the
alias (`type Foo = String` / `export type Foo = string`) is emitted as the
claim describes. -/
theorem componentsSchemasReadFromBackend :
    createRustComm "2025" "x" schemasOnlyContract Json.null =
      .error "TypeError" ∧
    createTypescriptComm "2025" "x" schemasOnlyContract Json.null =
      .error "TypeError" ∧
    ((createRustComm "2025" "x" Json.null schemasOnlyContract).toOption.map
      (fun s => containsSub "type Foo = String;\n\n".data s.data)) = some true ∧
    ((createTypescriptComm "2025" "x" Json.null schemasOnlyContract).toOption.map
      (fun s => containsSub "export type Foo = string;\n\n".data s.data)) =
        some true := by
  set_option maxRecDepth 1000000 in
  refine ⟨by decide, by decide, by decide, by decide⟩

/-! ## C8: visitor naming-context discipline -/

/-- A named object node used to observe visitor contexts. -/
def c8AnyObject : Json := jobj [("type", .str "object"), ("name", .str "x"),
  ("properties", jobj []), ("description", .str "d"),
  ("additionalProperties", .bool true)]

/-- C8 (counterexample): the two visitors do not share the claimed context
discipline.  The object visitor pushes the key `params` (the claim says
`params` is transparent), pushes the key `sub` even though the node carries
an explicit name `nm` (the claim says the name is pushed instead), and the
enum visitor pushes the key `schema` (the claim says `schema` is
transparent). -/
theorem visitorContext_counterexample :
    objectVisitorCollect [] (jobj [("params", c8AnyObject)]) =
      .ok [([.str "params"], c8AnyObject)] ∧
    ([Json.str "params"] : List Json) ≠ [] ∧
    objectVisitorCollect [] (jobj [("name", .str "nm"), ("sub", c8AnyObject)]) =
      .ok [([.str "sub"], c8AnyObject)] ∧
    ([Json.str "sub"] : List Json) ≠ [Json.str "nm"] ∧
    enumVisitorCollect [] (jobj [("methods", jarr [jobj [
      ("name", .str "set_mode"),
      ("result", jobj [("schema", jobj [("enum", jarr [.str "x"])])])]])]) =
      .ok [([.str "schema", .str "set_mode", .str "methods"], jarr [.str "x"])] ∧
    (Json.str "schema") ∈
      ([.str "schema", .str "set_mode", .str "methods"] : List Json) := by
  refine ⟨by decide, by decide, by decide, by decide, by decide, by decide⟩

/-- Draining a generator whose tail yields nothing: binding with an empty
trailing fragment list is the identity. -/
theorem exceptBindAppendNil {A : Type} (e : Except String (List A)) :
    (do
      let r ← e
      let rest ← (.ok [] : Except String (List A))
      .ok (r ++ rest)) = e := by
  cases e <;> simp [Bind.bind, Except.bind]

/-- C8 (amended): the context rules differ between the two visitors.  In
the enum visitor, `properties` and `params` are transparent, any other key
of an unnamed node is pushed, and a truthy `name` is pushed instead of the
key for every recursion from that node.  In the object visitor, only the
key `schema` is transparent, every other key is pushed — including
`properties` and `params`, and even when the node carries an explicit
`name` — and the recursion from a matched object node into its
`properties` keeps the context unchanged. -/
theorem visitorContext_amended {A : Type}
    (f : List Json → Json → Except String (List A)) (ctx : List Json)
    (k : String) (v : Json) (nm : String) :
    (k = "properties" ∨ k = "params" →
      enumVisitor f ctx (jobj [(k, v)]) = enumVisitor f ctx v) ∧
    (k ≠ "properties" → k ≠ "params" → k ≠ "enum" → k ≠ "name" →
      enumVisitor f ctx (jobj [(k, v)]) = enumVisitor f (.str k :: ctx) v) ∧
    (nm ≠ "" → k ≠ "enum" → k ≠ "name" →
      enumVisitor f ctx (jobj [("name", .str nm), (k, v)]) =
        enumVisitor f (.str nm :: ctx) v) ∧
    (k ≠ "schema" → (k = "type" → v ≠ .str "object") →
      objectVisitor f ctx (jobj [(k, v)]) = objectVisitor f (.str k :: ctx) v) ∧
    (objectVisitor f ctx (jobj [("schema", v)]) = objectVisitor f ctx v) ∧
    (k ≠ "schema" → k ≠ "type" → nm ≠ "" →
      objectVisitor f ctx (jobj [("name", .str nm), (k, v)]) =
        objectVisitor f (.str k :: ctx) v) ∧
    (∀ fs : JObj, JObj.find fs "type" = some (.str "object") →
      objectVisitor f ctx (.obj fs) = do
        let r ← f ctx (.obj fs)
        let r₂ ← objectVisitorProps f ctx fs
        .ok (r ++ r₂)) := by
  refine ⟨?_, ?_, ?_, ?_, ?_, ?_, ?_⟩
  · intro hk
    have henum : JObj.find (JObj.cons k v .nil) "enum" = none := by
      rcases hk with rfl | rfl <;> simp [JObj.find]
    have hname : truthyName (JObj.cons k v .nil) = none := by
      rcases hk with rfl | rfl <;> simp [truthyName, JObj.find]
    simp only [jobj, JObj.ofList, enumVisitor, henum, hname, Option.getD,
      Json.truthy, Bool.false_eq_true, if_false, enumVisitorFields, if_pos hk]
    exact exceptBindAppendNil _
  · intro h1 h2 h3 h4
    have henum : JObj.find (JObj.cons k v .nil) "enum" = none := by
      simp [JObj.find, h3]
    have hname : truthyName (JObj.cons k v .nil) = none := by
      simp [truthyName, JObj.find, h4]
    have hor : ¬ (k = "properties" ∨ k = "params") := by simp [h1, h2]
    simp only [jobj, JObj.ofList, enumVisitor, henum, hname, Option.getD,
      Json.truthy, Bool.false_eq_true, if_false, enumVisitorFields,
      if_neg hor]
    exact exceptBindAppendNil _
  · intro h1 h2 h3
    have henum : JObj.find (JObj.cons "name" (Json.str nm)
        (JObj.cons k v .nil)) "enum" = none := by
      simp [JObj.find, h2]
    have hname : truthyName (JObj.cons "name" (Json.str nm)
        (JObj.cons k v .nil)) = some (.str nm) := by
      simp [truthyName, JObj.find, Json.truthy, h1]
    simp only [jobj, JObj.ofList, enumVisitor, henum, hname, Option.getD,
      Json.truthy, Bool.false_eq_true, if_false, enumVisitorFields]
    simp only [enumVisitor, Bind.bind, Except.bind]
    cases h : enumVisitor f (.str nm :: ctx) v <;> simp [h]
  · intro h1 h2
    have hcond : ((JObj.find (JObj.cons k v .nil) "type").getD .undefValue =
        Json.str "object") = False := by
      by_cases hk : k = "type"
      · subst hk
        simp only [JObj.find, if_pos rfl, Option.getD, eq_iff_iff, iff_false]
        exact h2 rfl
      · simp [JObj.find, hk]
    simp only [jobj, JObj.ofList, objectVisitor, hcond, if_false,
      objectVisitorFields, if_neg h1]
    exact exceptBindAppendNil _
  · have hcond : JObj.find (JObj.cons "schema" v .nil) "type" = none := by
      simp [JObj.find]
    simp only [jobj, JObj.ofList, objectVisitor, hcond, Option.getD,
      objectVisitorFields, if_pos rfl]
    have : (Json.undefValue = Json.str "object") = False := by simp
    simp only [this, if_false]
    exact exceptBindAppendNil _
  · intro h1 h2 h3
    have hcond : JObj.find (JObj.cons "name" (Json.str nm)
        (JObj.cons k v .nil)) "type" = none := by
      simp [JObj.find, h2]
    simp only [jobj, JObj.ofList, objectVisitor, hcond, Option.getD,
      objectVisitorFields, if_neg h1]
    have hno : (Json.undefValue = Json.str "object") = False := by simp
    have hns : ("name" : String) ≠ "schema" := by decide
    simp only [hno, if_false, if_neg hns]
    simp only [objectVisitor, Bind.bind, Except.bind]
    cases h : objectVisitor f (.str k :: ctx) v <;> simp [h]
  · intro fs hfs
    simp [objectVisitor, hfs]

/-- C8 (witness): the amended theorem applied at the key `params` under the
object visitor: the key is pushed onto the context. -/
theorem visitorContext_amended_witness :
    objectVisitor
      (fun ctx o => (.ok [(ctx, o)] : Except String (List (List Json × Json))))
      [] (jobj [("params", c8AnyObject)]) =
    objectVisitor (fun ctx o => .ok [(ctx, o)]) [.str "params"] c8AnyObject :=
  (visitorContext_amended (fun ctx o => .ok [(ctx, o)]) [] "params"
    c8AnyObject "nm").2.2.2.1 (by decide) (by decide)

/-! ## C4: reference resolution totality and precedence -/

/-- `replaceCharBy` keeps a non-empty list non-empty when the replacement
is non-empty. -/
theorem replaceCharBy_ne_nil (c : Char) (r : List Char) (hr : r ≠ [])
    (l : List Char) (hl : l ≠ []) : replaceCharBy c r l ≠ [] := by
  match l with
  | [] => exact absurd rfl hl
  | x :: xs =>
    simp only [replaceCharBy]
    split
    · simp [hr]
    · simp

/-- `camelUnderscore` keeps a non-empty list non-empty. -/
theorem camelUnderscore_ne_nil (l : List Char) (hl : l ≠ []) :
    camelUnderscore l ≠ [] := by
  rw [camelUnderscore.eq_def]
  split
  · exact absurd rfl hl
  · split <;> simp
  · simp

/-- `upperFirstLower` keeps a non-empty list non-empty. -/
theorem upperFirstLower_ne_nil (l : List Char) (hl : l ≠ []) :
    upperFirstLower l ≠ [] := by
  match l with
  | [] => exact absurd rfl hl
  | c :: rest =>
    simp only [upperFirstLower]
    split <;> simp

/-- The Pascal-case transformer maps non-empty identifiers to non-empty
identifiers, so a resolved ref name is always truthy. -/
theorem sentenceCase_ne_empty (s : String) (h : s ≠ "") :
    snakeCaseToSentenceCase s ≠ "" := by
  have hd : s.data ≠ [] := by
    intro hdata
    exact h (by cases s; simp_all)
  have h1 : replaceCharBy '=' ['E', 'q'] s.data ≠ [] :=
    replaceCharBy_ne_nil _ _ (by simp) _ hd
  have h2 : replaceCharBy '!' ['N', 'o', 't']
      (replaceCharBy '=' ['E', 'q'] s.data) ≠ [] :=
    replaceCharBy_ne_nil _ _ (by simp) _ h1
  have h3 : replaceCharBy '<' ['L', 't'] (replaceCharBy '!' ['N', 'o', 't']
      (replaceCharBy '=' ['E', 'q'] s.data)) ≠ [] :=
    replaceCharBy_ne_nil _ _ (by simp) _ h2
  have h4 : replaceOps s.data ≠ [] :=
    replaceCharBy_ne_nil _ _ (by simp) _ h3
  have h5 : camelUnderscore (replaceOps s.data) ≠ [] :=
    camelUnderscore_ne_nil _ h4
  have h6 : upperFirstLower (snakeCaseToCamelCase s).data ≠ [] :=
    upperFirstLower_ne_nil _ h5
  intro hcontra
  exact h6 (congrArg String.data hcontra)

/-- A contract resolves a ref when the pointer walk succeeds through every
segment. -/
def refResolvesIn (ref : String) (c : Json) : Prop :=
  refWalk (jsSplit '/' ref) c = .ok true

instance (ref : String) (c : Json) : Decidable (refResolvesIn ref c) := by
  unfold refResolvesIn
  infer_instance

/-- C4: reference resolution totality and precedence.  Resolution skips
falsy (absent) contracts; the first contract in which every pointer
segment resolves yields the Pascal-cased final segment, regardless of the
remaining contracts; if no contract resolves the pointer, a named
`Could not find ref` error is thrown; and a successful resolution never
returns an empty (falsy/undefined) identifier. -/
theorem parseRef_resolution (ref : String) (contracts : List Json)
    (hlast : (jsSplit '/' ref).getLastD "" ≠ "") :
    (∀ c cs, c.truthy = false → parseRef ref (c :: cs) = parseRef ref cs) ∧
    (∀ c cs, c.truthy = true → refResolvesIn ref c →
      parseRef ref (c :: cs) =
        .ok (snakeCaseToSentenceCase ((jsSplit '/' ref).getLastD ""))) ∧
    ((∀ c ∈ contracts, c.truthy = true →
        refWalk (jsSplit '/' ref) c = .ok false) →
      parseRef ref contracts = .error ("Could not find ref: " ++ ref)) ∧
    (∀ s, parseRef ref contracts = .ok s → s ≠ "") := by
  have hpascal : snakeCaseToSentenceCase ((jsSplit '/' ref).getLastD "") ≠ "" :=
    sentenceCase_ne_empty _ hlast
  refine ⟨?_, ?_, ?_, ?_⟩
  · intro c cs hfalsy
    simp [parseRef, hfalsy]
  · intro c cs htr hres
    unfold refResolvesIn at hres
    simp only [parseRef, htr, Bool.not_true, Bool.false_eq_true, if_false,
      parseRefFromContract, hres, Bind.bind, Except.bind, if_pos rfl]
    simp only [if_true, ne_eq, ite_not]
    rw [if_neg (by simpa using hpascal)]
  · intro hnone
    induction contracts with
    | nil => rfl
    | cons c cs ih =>
      by_cases htr : c.truthy = true
      · have hw := hnone c (by simp) htr
        simp only [parseRef, htr, Bool.not_true, Bool.false_eq_true, if_false,
          parseRefFromContract, hw, Bind.bind, Except.bind]
        exact ih (fun d hd => hnone d (by simp [hd]))
      · have hf : c.truthy = false := by simpa using htr
        simp only [parseRef, hf, Bool.not_false, if_true]
        exact ih (fun d hd => hnone d (by simp [hd]))
  · intro s
    induction contracts with
    | nil => intro h; exact absurd h (by simp [parseRef])
    | cons c cs ih =>
      intro h
      by_cases htr : c.truthy = true
      · simp only [parseRef, htr, Bool.not_true, Bool.false_eq_true,
          if_false] at h
        rcases hp : parseRefFromContract ref c with e | n
        · rw [hp] at h; exact absurd h (by simp)
        · rw [hp] at h
          match n with
          | none => exact ih h
          | some nm =>
            by_cases hnm : nm = ""
            · simp [hnm] at h; exact ih h
            · simp [hnm] at h; rw [← h]; exact hnm
      · have hf : c.truthy = false := by simpa using htr
        simp only [parseRef, hf, Bool.not_false, if_true] at h
        exact ih h

/-- A contract declaring `components.schemas.foo_bar`, used to witness
resolution. -/
def refWitnessContract : Json := jobj [("components", jobj [("schemas",
  jobj [("foo_bar", jobj [("type", .str "string"),
    ("description", .str "d")])])])]

/-- C4 (witness): resolving `#/components/schemas/foo_bar` against a
single contract declaring it yields `FooBar`. -/
theorem parseRef_resolution_witness :
    parseRef "#/components/schemas/foo_bar" [refWitnessContract] =
      .ok "FooBar" := by
  have h := (parseRef_resolution "#/components/schemas/foo_bar"
    [refWitnessContract] (by decide)).2.1 refWitnessContract [] (by decide)
    (by decide)
  have hval : snakeCaseToSentenceCase
      ((jsSplit '/' "#/components/schemas/foo_bar").getLastD "") =
      "FooBar" := by decide
  rw [hval] at h
  exact h

/-! ## C5: type derivation precedence -/

/-- C5: `deriveType` evaluates its rules in a fixed order.  (1) A schema
with `type: "array"` derives the array-open token, the derived type of its
`items`, then the array-close token — regardless of any other field.
(2) Otherwise a truthy `$ref` resolves through `parseRef` — regardless of
`name` or `type: "object"`.  (3) Otherwise `type: "object"` yields the
Pascal-cased explicit `name` when truthy, else the Pascal-cased context
key.  (4) Otherwise the type string is looked up in the per-target table,
and an unrecognized kind throws `Unknown type`; a schema that is not an
object at all reads `.type` as `undefined` and throws
`Unknown type: undefined`. -/
theorem deriveType_precedence (contracts : List Json)
    (tm : List (String × String)) (key : Json) (fs : JObj) :
    ((JObj.find fs "type").getD .undefValue = .str "array" →
      deriveType contracts tm key (.obj fs) =
        (match deriveTypeItems contracts tm key fs with
         | .error e => .error e
         | .ok inner =>
           .ok (tmGet tm "array-begin" ++ inner ++ tmGet tm "array-end"))) ∧
    ((JObj.find fs "type").getD .undefValue ≠ .str "array" →
      ∀ rs : String, JObj.find fs "$ref" = some (.str rs) → rs ≠ "" →
        deriveType contracts tm key (.obj fs) = parseRef rs contracts) ∧
    ((JObj.find fs "type").getD .undefValue = .str "object" →
      ((JObj.find fs "$ref").getD .undefValue).truthy = false →
      deriveType contracts tm key (.obj fs) =
        (if ((JObj.find fs "name").getD .undefValue).truthy then
          sentenceCaseJs ((JObj.find fs "name").getD .undefValue)
        else sentenceCaseJs key)) ∧
    (∀ t : String, JObj.find fs "type" = some (.str t) → t ≠ "array" →
      t ≠ "object" → ((JObj.find fs "$ref").getD .undefValue).truthy = false →
      deriveType contracts tm key (.obj fs) =
        (match tmFind tm t with
         | some v => .ok v
         | none => .error ("Unknown type: " ++ t))) ∧
    (∀ s : Json, (∀ fs₂, s ≠ .obj fs₂) → s ≠ .null → s ≠ .undefValue →
      deriveType contracts tm key s = .error "Unknown type: undefined") := by
  refine ⟨?_, ?_, ?_, ?_, ?_⟩
  · intro h
    simp [deriveType, h]
  · intro h rs hrs hne
    simp [deriveType, h, hrs, Json.truthy, hne]
  · intro h1 h2
    have hne : (JObj.find fs "type").getD .undefValue ≠ .str "array" := by
      rw [h1]; decide
    simp [deriveType, hne, h2, h1]
  · intro t ht h1 h2 h3
    simp only [Option.getD] at h3
    simp only [deriveType, ht, Option.getD]
    rw [if_neg (show ¬ (Json.str t = Json.str "array") by simp [h1])]
    rw [if_neg (by simp [h3])]
    rw [if_neg (show ¬ (Json.str t = Json.str "object") by simp [h2])]
  · intro s hobj hnull hundef
    cases s with
    | null => exact absurd rfl hnull
    | undefValue => exact absurd rfl hundef
    | obj fs₂ => exact absurd rfl (hobj fs₂)
    | bool b => simp [deriveType, jdisplay]
    | num n => simp [deriveType, jdisplay]
    | str s => simp [deriveType, jdisplay]
    | arr xs => simp [deriveType, jdisplay]

/-- C5 (witness): the four rules applied at concrete schemas: an array of
strings for Rust; a `$ref` (despite an explicit `name` on the node)
resolved to `FooBar`; an anonymous object named from its context key; and
an unknown primitive kind throwing. -/
theorem deriveType_precedence_witness :
    deriveType [] RustTypeMap (.str "k") (jobj [("type", .str "array"),
      ("items", jobj [("type", .str "string")])]) = .ok "Vec<String>" ∧
    deriveType [refWitnessContract] RustTypeMap (.str "k")
      (jobj [("name", .str "other_name"),
        ("$ref", .str "#/components/schemas/foo_bar")]) = .ok "FooBar" ∧
    deriveType [] RustTypeMap (.str "ctx_key") (jobj [("type", .str "object"),
      ("properties", jobj [])]) = .ok "CtxKey" ∧
    deriveType [] RustTypeMap (.str "k") (jobj [("type", .str "widget")]) =
      .error "Unknown type: widget" := by
  refine ⟨?_, ?_, ?_, ?_⟩
  · exact ((deriveType_precedence [] RustTypeMap (.str "k") _).1
      (by decide)).trans (by decide)
  · exact ((deriveType_precedence [refWitnessContract] RustTypeMap
      (.str "k") _).2.1 (by decide) "#/components/schemas/foo_bar"
      (by decide) (by decide)).trans (by decide)
  · exact ((deriveType_precedence [] RustTypeMap (.str "ctx_key") _).2.2.1
      (by decide) (by decide)).trans (by decide)
  · exact ((deriveType_precedence [] RustTypeMap (.str "k") _).2.2.2.1
      "widget" (by decide) (by decide) (by decide) (by decide)).trans
      (by decide)

/-! ## C9: naming transformer pipeline -/

/-- Per-character view of the four comparison-character substitutions. -/
def expandOpChar (c : Char) : List Char :=
  if c = '=' then ['E', 'q']
  else if c = '!' then ['N', 'o', 't']
  else if c = '<' then ['L', 't']
  else if c = '>' then ['G', 't']
  else [c]

/-- Single-pass description of the camel-case transformer: expand the
comparison characters, and remove an underscore exactly when it is
immediately followed by a lowercase ASCII letter, upper-casing that
letter; any other underscore (before an uppercase letter, a digit,
another underscore, or at the end) is kept. -/
def camelFused : List Char → List Char
  | [] => []
  | '_' :: c :: rest =>
    if isAsciiLower c then upperAscii c :: camelFused rest
    else '_' :: camelFused (c :: rest)
  | c :: rest => expandOpChar c ++ camelFused rest

/-- Modelled from the claim text: after the comparison-character
substitutions, remove every underscore, upper-casing a lowercase letter
that follows one. -/
def camelClaimedUnderscores : List Char → List Char
  | [] => []
  | ['_'] => []
  | '_' :: c :: rest =>
    (if isAsciiLower c then upperAscii c else c) :: camelClaimedUnderscores rest
  | c :: rest => c :: camelClaimedUnderscores rest

/-- The transformer the claim describes. -/
def snakeCaseToCamelCaseClaimed (name : String) : String :=
  String.mk (camelClaimedUnderscores (replaceOps name.data))

/-- C9 (counterexample): `snakeCaseToCamelCase` does not remove every
underscore: the regex only matches an underscore followed by a lowercase
letter, so on `a_1` the underscore survives, while the claim's transform
removes it. -/
theorem namingTransformer_counterexample :
    snakeCaseToCamelCase "a_1" = "a_1" ∧
    snakeCaseToCamelCaseClaimed "a_1" = "a1" ∧
    snakeCaseToCamelCase "a_1" ≠ snakeCaseToCamelCaseClaimed "a_1" := by
  refine ⟨by decide, by decide, by decide⟩

theorem replaceCharBy_append (c : Char) (r a b : List Char) :
    replaceCharBy c r (a ++ b) = replaceCharBy c r a ++ replaceCharBy c r b := by
  induction a with
  | nil => simp [replaceCharBy]
  | cons x xs ih =>
    simp only [List.cons_append, replaceCharBy, ih]
    split <;> simp [ih]

/-- The four sequential global replacements act per character. -/
theorem replaceOps_cons (x : Char) (xs : List Char) :
    replaceOps (x :: xs) = expandOpChar x ++ replaceOps xs := by
  by_cases h1 : x = '='
  · subst h1
    simp [replaceOps, replaceCharBy, replaceCharBy_append, expandOpChar]
  · by_cases h2 : x = '!'
    · subst h2
      simp [replaceOps, replaceCharBy, replaceCharBy_append, expandOpChar]
    · by_cases h3 : x = '<'
      · subst h3
        simp [replaceOps, replaceCharBy, replaceCharBy_append, expandOpChar]
      · by_cases h4 : x = '>'
        · subst h4
          simp [replaceOps, replaceCharBy, replaceCharBy_append, expandOpChar]
        · simp [replaceOps, replaceCharBy, replaceCharBy_append, expandOpChar,
            h1, h2, h3, h4]

theorem camelUnderscore_cons_ne (a : Char) (ha : a ≠ '_') (l : List Char) :
    camelUnderscore (a :: l) = a :: camelUnderscore l := by
  rw [camelUnderscore.eq_def]
  split
  · next heq => simp at heq
  · next c rest heq =>
    have h₁ : a = '_' := by
      injection heq with h₁ h₂
    exact absurd h₁ ha
  · next c rest heq =>
    injection heq with h₁ h₂
    subst h₁
    rw [h₂]

theorem camelFused_cons_ne (a : Char) (ha : a ≠ '_') (l : List Char) :
    camelFused (a :: l) = expandOpChar a ++ camelFused l := by
  rw [camelFused.eq_def]
  split
  · next heq => simp at heq
  · next c rest heq =>
    have h₁ : a = '_' := by
      injection heq with h₁ h₂
    exact absurd h₁ ha
  · next c rest heq =>
    injection heq with h₁ h₂
    subst h₁
    rw [h₂]

theorem expandOpChar_not_underscore (c : Char) (hc : c ≠ '_') :
    '_' ∉ expandOpChar c := by
  unfold expandOpChar
  split_ifs <;> simp_all [eq_comm]

theorem camelUnderscore_append (blk l : List Char) (hb : '_' ∉ blk) :
    camelUnderscore (blk ++ l) = blk ++ camelUnderscore l := by
  induction blk with
  | nil => rfl
  | cons x xs ih =>
    have hx : x ≠ '_' := by
      intro h
      exact hb (by simp [h])
    simp only [List.cons_append]
    rw [camelUnderscore_cons_ne x hx, ih (by intro h; exact hb (by simp [h]))]

theorem expandOpChar_lower (b : Char) (hb : isAsciiLower b = true) :
    expandOpChar b = [b] := by
  unfold expandOpChar
  rw [if_neg (by rintro rfl; exact absurd hb (by decide)),
    if_neg (by rintro rfl; exact absurd hb (by decide)),
    if_neg (by rintro rfl; exact absurd hb (by decide)),
    if_neg (by rintro rfl; exact absurd hb (by decide))]

theorem camelUnderscore_underscore_block (b : Char)
    (hb : isAsciiLower b = false) (l : List Char) :
    camelUnderscore ('_' :: (expandOpChar b ++ l)) =
      '_' :: camelUnderscore (expandOpChar b ++ l) := by
  by_cases h1 : b = '='
  · subst h1
    simp [expandOpChar, camelUnderscore]
    all_goals decide
  · by_cases h2 : b = '!'
    · subst h2
      simp [expandOpChar, camelUnderscore]
      all_goals decide
    · by_cases h3 : b = '<'
      · subst h3
        simp [expandOpChar, camelUnderscore]
        all_goals decide
      · by_cases h4 : b = '>'
        · subst h4
          simp [expandOpChar, camelUnderscore]
          all_goals decide
        · rw [show expandOpChar b = [b] from by
            unfold expandOpChar
            rw [if_neg h1, if_neg h2, if_neg h3, if_neg h4]]
          conv_lhs => rw [camelUnderscore.eq_def]
          simp [hb]

/-- The sequential implementation (comparison-character substitutions,
then the underscore regex) computes the single-pass description. -/
theorem camelUnderscore_replaceOps : ∀ cs : List Char,
    camelUnderscore (replaceOps cs) = camelFused cs
  | [] => rfl
  | [c] => by
    rw [replaceOps_cons c []]
    rw [show replaceOps [] = [] from rfl, List.append_nil]
    by_cases hc : c = '_'
    · subst hc; rfl
    · rw [show camelFused [c] = expandOpChar c ++ camelFused [] from
        camelFused_cons_ne c hc []]
      rw [show camelFused [] = ([] : List Char) from rfl, List.append_nil]
      have := camelUnderscore_append (expandOpChar c) []
        (expandOpChar_not_underscore c hc)
      rw [List.append_nil] at this
      rw [this]
      simp [camelUnderscore]
  | a :: b :: rest => by
    by_cases ha : a = '_'
    · subst ha
      by_cases hb : isAsciiLower b = true
      · rw [replaceOps_cons, replaceOps_cons]
        rw [show expandOpChar '_' = ['_'] from rfl, expandOpChar_lower b hb]
        show camelUnderscore ('_' :: b :: replaceOps rest) =
          camelFused ('_' :: b :: rest)
        conv_lhs => rw [camelUnderscore.eq_def]
        conv_rhs => rw [camelFused.eq_def]
        simp only [hb, if_true, if_pos]
        rw [camelUnderscore_replaceOps rest]
      · rw [replaceOps_cons, replaceOps_cons]
        rw [show expandOpChar '_' = ['_'] from rfl]
        show camelUnderscore ('_' :: (expandOpChar b ++ replaceOps rest)) =
          camelFused ('_' :: b :: rest)
        rw [camelUnderscore_underscore_block b (by simpa using hb)]
        rw [← replaceOps_cons]
        rw [camelUnderscore_replaceOps (b :: rest)]
        conv_rhs => rw [camelFused.eq_def]
        simp [hb]
    · rw [replaceOps_cons]
      rw [camelUnderscore_append (expandOpChar a) _
        (expandOpChar_not_underscore a ha)]
      rw [camelUnderscore_replaceOps (b :: rest)]
      rw [camelFused_cons_ne a ha]

/-- C9 (amended): `snakeCaseToCamelCase` first replaces the four
comparison characters (`=` to `Eq`, `!` to `Not`, `<` to `Lt`, `>` to
`Gt`) and then removes each underscore that is immediately followed by a
lowercase ASCII letter, upper-casing that letter — an underscore followed
by anything else is kept; `snakeCaseToSentenceCase` additionally
upper-cases a lowercase first character.  Both are total pure functions,
as witnessed by the equivalent single-pass computation `camelFused`. -/
theorem namingTransformer_amended (s : String) :
    snakeCaseToCamelCase s = String.mk (camelFused s.data) ∧
    snakeCaseToSentenceCase s =
      String.mk (upperFirstLower (camelFused s.data)) := by
  constructor
  · unfold snakeCaseToCamelCase
    rw [camelUnderscore_replaceOps]
  · unfold snakeCaseToSentenceCase snakeCaseToCamelCase
    rw [camelUnderscore_replaceOps]

/-! ## C10: comment line-wrapping preserves content -/

/-- Join lines with single spaces. -/
def joinSp : List String → String
  | [] => ""
  | [l] => l
  | l :: ls => l ++ " " ++ joinSp ls

/-- The words of a tail, each re-attached with the single space the
joining reinserts. -/
def glueWords (ws : List String) : String :=
  ws.foldr (fun w acc => " " ++ w ++ acc) ""

/-- Plain concatenation of rendered lines. -/
def concatLines (L : List String) : String :=
  L.foldr (fun l acc => l ++ acc) ""

/-- Characters interleaved back with the split separator. -/
def intercalateChar : List (List Char) → List Char
  | [] => []
  | [w] => w
  | w :: ws => w ++ ' ' :: intercalateChar ws

/-- A single word of seventy characters. -/
def longWord : String := String.mk (List.replicate 70 'x')

/-- C10 (counterexample): content is not always preserved.  The string of
seventy `x` characters contains no two consecutive spaces, yet
`formatLines` pushes an empty first line before it (the very first word
already overflows the 70-character budget while the current line is
empty), so joining the produced lines with single spaces prepends a space
that the original string does not have. -/
theorem formatLines_counterexample :
    containsSub [' ', ' '] longWord.data = false ∧
    formatLines longWord = ["", longWord] ∧
    joinSp (formatLines longWord) ≠ longWord := by
  refine ⟨by decide, by decide, by decide⟩

theorem stringAppendAssociative (a b c : String) :
    a ++ b ++ c = a ++ (b ++ c) := by
  apply String.ext
  simp [String.data_append, List.append_assoc]

theorem stringAppendEmpty (s : String) : s ++ "" = s := by
  apply String.ext
  simp [String.data_append]

theorem stringEmptyAppend (s : String) : "" ++ s = s := by
  apply String.ext
  simp [String.data_append]

theorem stringMkAppend (a b : List Char) :
    String.mk a ++ String.mk b = String.mk (a ++ b) := by
  apply String.ext
  simp [String.data_append]

theorem splitOnChar_ne_nil (sep : Char) (cs : List Char) :
    splitOnChar sep cs ≠ [] := by
  cases cs with
  | nil => simp [splitOnChar]
  | cons c rest =>
    simp only [splitOnChar]
    split
    · simp
    · split <;> simp

theorem intercalateChar_cons_head (c : Char) (w : List Char)
    (ws : List (List Char)) :
    intercalateChar ((c :: w) :: ws) = c :: intercalateChar (w :: ws) := by
  cases ws <;> rfl

/-- Splitting on the separator and interleaving it back is the
identity. -/
theorem intercalateChar_splitOnChar (cs : List Char) :
    intercalateChar (splitOnChar ' ' cs) = cs := by
  induction cs with
  | nil => rfl
  | cons c rest ih =>
    simp only [splitOnChar]
    by_cases hc : c = ' '
    · subst hc
      simp only [if_pos rfl]
      obtain ⟨r₀, rs, hr⟩ :=
        List.exists_cons_of_ne_nil (splitOnChar_ne_nil ' ' rest)
      rw [hr]
      rw [hr] at ih
      cases r₀ <;> simp [intercalateChar, ← ih]
    · simp only [if_neg hc]
      obtain ⟨r₀, rs, hr⟩ :=
        List.exists_cons_of_ne_nil (splitOnChar_ne_nil ' ' rest)
      rw [hr]
      rw [hr] at ih
      rw [intercalateChar_cons_head]
      rw [ih]

theorem joinSp_map_mk : ∀ l : List (List Char),
    joinSp (l.map String.mk) = String.mk (intercalateChar l)
  | [] => rfl
  | [w] => rfl
  | w :: w₂ :: ws => by
    show String.mk w ++ " " ++ joinSp ((w₂ :: ws).map String.mk) =
      String.mk (w ++ ' ' :: intercalateChar (w₂ :: ws))
    rw [joinSp_map_mk (w₂ :: ws)]
    rw [show (" " : String) = String.mk [' '] from rfl]
    rw [stringMkAppend, stringMkAppend]
    simp [List.append_assoc]

/-- Joining the JavaScript single-space split with single spaces is the
identity. -/
theorem joinSp_jsSplit (s : String) : joinSp (jsSplit ' ' s) = s := by
  unfold jsSplit
  rw [joinSp_map_mk, intercalateChar_splitOnChar]

theorem jsSplit_ne_nil (s : String) : jsSplit ' ' s ≠ [] := by
  unfold jsSplit
  simp [splitOnChar_ne_nil]

theorem joinSp_cons_eq (w : String) (ws : List String) :
    joinSp (w :: ws) = w ++ glueWords ws := by
  induction ws generalizing w with
  | nil => exact (stringAppendEmpty w).symm
  | cons b bs ih =>
    show w ++ " " ++ joinSp (b :: bs) = w ++ glueWords (b :: bs)
    rw [ih b]
    show w ++ " " ++ (b ++ glueWords bs) = w ++ (" " ++ b ++ glueWords bs)
    rw [stringAppendAssociative, stringAppendAssociative]

theorem joinSp_append_singleton (A : List String) (w : String) (hA : A ≠ []) :
    joinSp (A ++ [w]) = joinSp A ++ " " ++ w := by
  induction A with
  | nil => exact absurd rfl hA
  | cons a as ih =>
    cases as with
    | nil => rfl
    | cons b bs =>
      have h := ih (by simp)
      show a ++ " " ++ joinSp ((b :: bs) ++ [w]) =
        a ++ " " ++ joinSp (b :: bs) ++ " " ++ w
      rw [h]
      rw [stringAppendAssociative (a ++ " ") (joinSp (b :: bs)) " ",
        stringAppendAssociative (a ++ " ")]

theorem stringLength_pos (s : String) (h : s ≠ "") : 0 < s.length := by
  have hd : s.data ≠ [] := by
    intro hdata
    exact h (by cases s; simp_all)
  cases s with
  | mk data =>
    simp only [String.length]
    exact List.length_pos.mpr hd

theorem stringAppend_ne_empty (a b s : String) :
    a ++ " " ++ s ≠ "" := by
  intro h
  have := congrArg String.data h
  simp [String.data_append] at this

/-- The accumulation invariant of the `formatLines` loop: starting from a
non-empty current line and any accumulated lines, processing non-empty
words appends exactly those words, space-separated, to the join of the
final line list. -/
theorem formatLinesGo_join (ws : List String) :
    ∀ (lines : List String) (cur : String), (∀ w ∈ ws, w ≠ "") → cur ≠ "" →
    joinSp (formatLinesGo ws lines cur) =
      joinSp (lines ++ [cur]) ++ glueWords ws := by
  induction ws with
  | nil =>
    intro lines cur _ _
    simp only [formatLinesGo, glueWords, List.foldr_nil]
    exact (stringAppendEmpty _).symm
  | cons w ws ih =>
    intro lines cur hws hcur
    have hw : w ≠ "" := hws w (by simp)
    have hws₂ : ∀ x ∈ ws, x ≠ "" := fun x hx => hws x (by simp [hx])
    simp only [formatLinesGo]
    by_cases hlen : cur.length + w.length + 1 > 70
    · rw [if_pos hlen]
      rw [ih (lines ++ [cur]) w hws₂ hw]
      rw [joinSp_append_singleton (lines ++ [cur]) w (by simp)]
      show joinSp (lines ++ [cur]) ++ " " ++ w ++ glueWords ws =
        joinSp (lines ++ [cur]) ++ (" " ++ w ++ glueWords ws)
      rw [stringAppendAssociative (joinSp (lines ++ [cur]) ++ " ") w,
        stringAppendAssociative (joinSp (lines ++ [cur])) " ",
        ← stringAppendAssociative " " w (glueWords ws)]
    · rw [if_neg hlen]
      rw [if_pos (stringLength_pos cur hcur)]
      rw [ih lines (cur ++ " " ++ w) hws₂ (stringAppend_ne_empty cur " " w)]
      have hsplit : joinSp (lines ++ [cur ++ " " ++ w]) =
          joinSp (lines ++ [cur]) ++ " " ++ w := by
        cases lines with
        | nil => rfl
        | cons a as =>
          rw [joinSp_append_singleton (a :: as) (cur ++ " " ++ w) (by simp),
            joinSp_append_singleton (a :: as) cur (by simp)]
          rw [stringAppendAssociative (joinSp (a :: as) ++ " ") cur,
            stringAppendAssociative (joinSp (a :: as) ++ " ")]
      rw [hsplit]
      show joinSp (lines ++ [cur]) ++ " " ++ w ++ glueWords ws =
        joinSp (lines ++ [cur]) ++ (" " ++ w ++ glueWords ws)
      rw [stringAppendAssociative (joinSp (lines ++ [cur]) ++ " ") w,
        stringAppendAssociative (joinSp (lines ++ [cur])) " ",
        ← stringAppendAssociative " " w (glueWords ws)]

theorem foldl_lines_concat (leader : String) (L : List String) :
    ∀ acc : String,
      L.foldl (fun result l => result ++ leader ++ l ++ "\n") acc =
        acc ++ concatLines (L.map (fun l => leader ++ l ++ "\n")) := by
  induction L with
  | nil => intro acc; exact (stringAppendEmpty acc).symm
  | cons a as ih =>
    intro acc
    show as.foldl _ (acc ++ leader ++ a ++ "\n") = _
    rw [ih (acc ++ leader ++ a ++ "\n")]
    show acc ++ leader ++ a ++ "\n" ++
        concatLines (as.map (fun l => leader ++ l ++ "\n")) =
      acc ++ (leader ++ a ++ "\n" ++
        concatLines (as.map (fun l => leader ++ l ++ "\n")))
    simp [stringAppendAssociative]

/-- C10 (amended): for every string in which each space-separated word is
non-empty (no leading, trailing, or doubled spaces) and whose first word
is shorter than 70 characters, joining the lines returned by
`formatLines` with single spaces yields exactly the original string — no
word is dropped, duplicated, or reordered; and `formatComment` emits
exactly the produced lines, each prefixed by the leader and terminated by
a newline. -/
theorem formatLines_amended (s leader : String)
    (hw : ∀ w ∈ jsSplit ' ' s, w ≠ "")
    (hfirst : ((jsSplit ' ' s).headD "").length < 70) :
    joinSp (formatLines s) = s ∧
    formatComment leader s =
      concatLines ((formatLines s).map (fun l => leader ++ l ++ "\n")) := by
  constructor
  · unfold formatLines
    obtain ⟨w₁, ws, hsplit⟩ := List.exists_cons_of_ne_nil (jsSplit_ne_nil s)
    rw [hsplit]
    have hw₁ : w₁ ≠ "" := hw w₁ (by rw [hsplit]; simp)
    have hfirst₁ : w₁.length < 70 := by
      rw [hsplit] at hfirst
      simpa using hfirst
    have hws : ∀ x ∈ ws, x ≠ "" := fun x hx => hw x (by rw [hsplit]; simp [hx])
    simp only [formatLinesGo]
    rw [if_neg (by simp [String.length_empty]; omega)]
    rw [if_neg (by simp [String.length_empty])]
    rw [stringEmptyAppend w₁]
    rw [formatLinesGo_join ws [] w₁ hws hw₁]
    show w₁ ++ glueWords ws = s
    rw [← joinSp_cons_eq, ← hsplit]
    exact joinSp_jsSplit s
  · unfold formatComment
    rw [foldl_lines_concat leader (formatLines s) ""]
    rw [stringEmptyAppend]

/-- C10 (witness): the amended theorem at the two-word comment
`hello world` with leader `# `. -/
theorem formatLines_amended_witness :
    joinSp (formatLines "hello world") = "hello world" ∧
    formatComment "# " "hello world" =
      concatLines ((formatLines "hello world").map (fun l => "# " ++ l ++ "\n")) :=
  formatLines_amended "hello world" "# " (by decide) (by decide)

/-! ## Sanity checks of the embedding on small inputs -/

example : snakeCaseToCamelCase "set_mode" = "setMode" := rfl

example : snakeCaseToSentenceCase "set_mode" = "SetMode" := rfl

example : snakeCaseToSentenceCase "not_equal" = "NotEqual" := rfl

example : snakeCaseToCamelCase "a=b" = "aEqb" := rfl

example : formatLines "hello world" = ["hello world"] := rfl

example : formatComment "/// " "hi" = "/// hi\n" := rfl

example :
    deriveType [] TypescriptTypeMap (.str "k")
      (jobj [("type", .str "string")]) = .ok "string" := rfl

example :
    deriveType [] TypescriptTypeMap (.str "k")
      (jobj [("type", .str "array"), ("items", jobj [("type", .str "integer")])]) =
      .ok "Array<number>" := rfl

example :
    deriveType [] RustTypeMap (.str "k")
      (jobj [("type", .str "widget")]) = .error "Unknown type: widget" := rfl

example :
    enumVisitorCollect []
      (jobj [("methods", jarr [jobj [
        ("name", .str "set_mode"),
        ("params", jarr [jobj [
          ("name", .str "mode"),
          ("schema", jobj [("type", .str "string"),
                           ("enum", jarr [.str "a", .str "b"])])]])]])]) =
    .ok [([.str "mode", .str "set_mode", .str "methods"],
          jarr [.str "a", .str "b"])] := by decide
